import Mathlib

/-!
Verification of the Forest function-to-mesh tessellation engine
(src/src/graph/d2/{explicit,implicit,parametric}.rs, src/src/graph/d3/
{implicit_surface,mesh,parametric_curve}.rs) against its specification.

Modelling conventions (shallow embedding):
* `f64`/`f32` values that the code only combines by field operations and
  comparisons are modelled as exact rationals (`ℚ`); values produced by
  `sqrt`, `sin`, `cos` are modelled as exact reals (`ℝ`).
* A function result that may be NaN/±Inf is modelled by `Option ℚ` where the
  code only ever tests `is_finite` (the 2D solvers), and by the four-point
  IEEE-style type `Flt` where non-finite values flow into arithmetic
  (the parametric-surface mesher `mesh.rs`).
* Rayon's `into_par_iter().flat_map(...).collect()` / `par_chunks_mut`
  produce chunks in index order regardless of worker completion order; the
  parallel loops are embedded as `List.range ... |>.flatMap`/`map` in index
  order, and claim C10 shows the index-ordered reassembly of an arbitrary
  completion order yields exactly these lists.
-/

namespace Forest

/-! ### 2D implicit curve solver, src/src/graph/d2/implicit.rs

The solver is fully rational: it evaluates `f` on a grid and emits
linearly-interpolated zero crossings; no square roots are taken. -/

/-- Rust `usize::clamp(self, 100, 700)` used for the grid resolution:
`(screen_dim / 2).clamp(100, 700)`. -/
def gridClamp (v : ℕ) : ℕ := min (max v 100) 700

/-- `ImplicitSolver::linear_interp` (implicit.rs lines 44-48): `t = 0.5` when
the denominator is numerically zero, else `clamp(-v0/(v1-v0), 0, 1)`.
Rust `x.clamp(0,1)` on finite input is `min 1 (max 0 x)`. -/
def linearInterp (v0 v1 : ℚ) : ℚ :=
  let diff := v1 - v0
  if |diff| < 1e-15 then 1/2 else min 1 (max 0 (-v0 / diff))

/-- Loop body of `ImplicitSolver::solve` for one grid cell `(i, j)` at
lower-left world coordinates `(x, y)` (implicit.rs lines 26-38): an
edge-crossing point on the horizontal edge if `v00*v10 ≤ 0`, then one on the
vertical edge if `v00*v01 ≤ 0`. -/
def impCellPts (f : ℚ → ℚ → ℚ) (x y xStep yStep : ℚ) : List (ℚ × ℚ) :=
  let v00 := f x y
  let v10 := f (x + xStep) y
  let v01 := f x (y + yStep)
  (if v00 * v10 ≤ 0 then [(x + linearInterp v00 v10 * xStep, y)] else []) ++
    (if v00 * v01 ≤ 0 then [(x, y + linearInterp v00 v01 * yStep)] else [])

/-- One worker's column `i` of `ImplicitSolver::solve`: the `for j` loop that
fills `local_pts` (implicit.rs lines 22-40). -/
def impColumn (f : ℚ → ℚ → ℚ) (xr yr : ℚ × ℚ) (screenW screenH : ℕ)
    (i : ℕ) : List (ℚ × ℚ) :=
  let gw := gridClamp (screenW / 2)
  let gh := gridClamp (screenH / 2)
  let xStep := (xr.2 - xr.1) / gw
  let yStep := (yr.2 - yr.1) / gh
  (List.range gh).flatMap fun j =>
    impCellPts f (xr.1 + i * xStep) (yr.1 + j * yStep) xStep yStep

/-- `ImplicitSolver::solve` (implicit.rs lines 10-42): the parallel
`flat_map` over columns, collected in index order. -/
def implicitSolve (f : ℚ → ℚ → ℚ) (xr yr : ℚ × ℚ)
    (screenW screenH : ℕ) : List (ℚ × ℚ) :=
  (List.range (gridClamp (screenW / 2))).flatMap
    (impColumn f xr yr screenW screenH)

/-! ### 2D explicit curve solver, src/src/graph/d2/explicit.rs -/

/-- `SAMPLING_DENSITY` (explicit.rs line 6). -/
def SAMPLING_DENSITY : ℚ := 1

/-- `ASYMPTOTE_THRESHOLD_FACTOR` (explicit.rs line 9). -/
def ASYMPTOTE_THRESHOLD_FACTOR : ℚ := 10

/-- Sample count of `ExplicitSolver::solve` (explicit.rs lines 33-34):
`(screen_w * 1.0).ceil().max(100)`. -/
def expTotalSamples (screenW : ℕ) : ℕ := max screenW 100

/-- The asymptote break threshold (explicit.rs lines 53-56):
`(2.0 / zoom) * ASYMPTOTE_THRESHOLD_FACTOR`. -/
def expJumpThreshold (zoom : ℚ) : ℚ := 2 / zoom * ASYMPTOTE_THRESHOLD_FACTOR

/-- The sampled path of `ExplicitSolver::solve` (explicit.rs lines 39-43):
`path[i] = (x_min + i*step, f x)` for `i = 0..=total`; a `none` second
component models a NaN/Inf sample. -/
def expPathList (f : ℚ → Option ℚ) (xMin step : ℚ) (total : ℕ) :
    List (ℚ × Option ℚ) :=
  (List.range (total + 1)).map fun i => (xMin + i * step, f (xMin + i * step))

/-- Loop body of `ExplicitSolver::solve` for one adjacent sample pair
(explicit.rs lines 61-93): skip non-finite `y`s, skip a jump above the
asymptote threshold, skip a degenerate segment, else extrude the
constant-width ribbon quad (6 vertices, two triangles). -/
noncomputable def expSegVerts (p0 p1 : ℚ × Option ℚ) (halfW : ℝ) (thr : ℚ) :
    List (ℝ × ℝ) :=
  match p0.2, p1.2 with
  | some y0, some y1 =>
    if |y1 - y0| > thr then []
    else
      let dx : ℝ := (p1.1 : ℝ) - (p0.1 : ℝ)
      let dys : ℝ := (y1 : ℝ) - (y0 : ℝ)
      let len : ℝ := Real.sqrt (dx * dx + dys * dys)
      if len < 1e-9 then []
      else
        let nx := -dys / len
        let ny := dx / len
        [((p0.1 : ℝ) + nx * halfW, (y0 : ℝ) + ny * halfW),
         ((p1.1 : ℝ) + nx * halfW, (y1 : ℝ) + ny * halfW),
         ((p0.1 : ℝ) - nx * halfW, (y0 : ℝ) - ny * halfW),
         ((p0.1 : ℝ) - nx * halfW, (y0 : ℝ) - ny * halfW),
         ((p1.1 : ℝ) + nx * halfW, (y1 : ℝ) + ny * halfW),
         ((p1.1 : ℝ) - nx * halfW, (y1 : ℝ) - ny * halfW)]
  | _, _ => []

/-- `ExplicitSolver::solve` (explicit.rs lines 16-97): empty on a degenerate
domain (`x_len ≤ 0` or `screen_w == 0`), else the concatenation of the
per-pair ribbon quads over `i in 0..path.len()-1`. -/
noncomputable def explicitSolve (f : ℚ → Option ℚ) (xr : ℚ × ℚ)
    (widthPx zoom : ℚ) (screenW : ℕ) (screenH : ℚ) : List (ℝ × ℝ) :=
  let xLen := xr.2 - xr.1
  if xLen ≤ 0 ∨ screenW = 0 then []
  else
    let total := expTotalSamples screenW
    let step := xLen / total
    let path := expPathList f xr.1 step total
    let pixelSizeWorld := 2 / zoom / screenH
    let halfW : ℝ := ((widthPx * (1/2) * pixelSizeWorld : ℚ) : ℝ)
    let thr := expJumpThreshold zoom
    (List.range (path.length - 1)).flatMap fun i =>
      expSegVerts (path.getD i (0, none)) (path.getD (i + 1) (0, none)) halfW thr

/-! ### 2D parametric curve solver, src/src/graph/d2/parametric.rs -/

/-- `SAMPLES_PER_UNIT_T` (parametric.rs line 4). -/
def SAMPLES_PER_UNIT_T : ℚ := 20

/-- `JUMP_THRESHOLD_FACTOR` (parametric.rs line 8). -/
def JUMP_THRESHOLD_FACTOR : ℚ := 2

/-- Sample count of `ParametricSolver::solve` (parametric.rs lines 31-32):
`(t_len * 20.0).floor().max(200)`. -/
def parTotalSamples (tLen : ℚ) : ℕ := max (⌊tLen * SAMPLES_PER_UNIT_T⌋).toNat 200

/-- The sampled path of `ParametricSolver::solve` (parametric.rs lines
36-39); `none` models a sample with a non-finite coordinate. -/
def parPathList (f : ℚ → Option (ℚ × ℚ)) (tMin step : ℚ) (total : ℕ) :
    List (Option (ℚ × ℚ)) :=
  (List.range (total + 1)).map fun i => f (tMin + i * step)

/-- Loop body of `ParametricSolver::solve` for one adjacent sample pair
(parametric.rs lines 52-94): skip non-finite samples, near-duplicate points
(`dist² < 1e-12`) and overlong jumps (`dist² > max_jump_dist_sq`), else
extrude the ribbon quad. -/
noncomputable def parSegVerts (p0 p1 : Option (ℚ × ℚ)) (halfW : ℝ)
    (maxJumpSq : ℚ) : List (ℝ × ℝ) :=
  match p0, p1 with
  | some q0, some q1 =>
    let dx := q1.1 - q0.1
    let dy := q1.2 - q0.2
    let distSq := dx * dx + dy * dy
    if distSq < 1e-12 then []
    else if distSq > maxJumpSq then []
    else
      let len : ℝ := Real.sqrt ((distSq : ℚ) : ℝ)
      let nx := -(dy : ℝ) / len
      let ny := (dx : ℝ) / len
      let ox := nx * halfW
      let oy := ny * halfW
      [((q0.1 : ℝ) + ox, (q0.2 : ℝ) + oy),
       ((q1.1 : ℝ) + ox, (q1.2 : ℝ) + oy),
       ((q0.1 : ℝ) - ox, (q0.2 : ℝ) - oy),
       ((q0.1 : ℝ) - ox, (q0.2 : ℝ) - oy),
       ((q1.1 : ℝ) + ox, (q1.2 : ℝ) + oy),
       ((q1.1 : ℝ) - ox, (q1.2 : ℝ) - oy)]
  | _, _ => []

/-- `ParametricSolver::solve` (parametric.rs lines 15-98): empty when
`t_len ≤ 0`, else the concatenation of the per-pair ribbon quads. -/
noncomputable def parametricSolve (f : ℚ → Option (ℚ × ℚ)) (tr : ℚ × ℚ)
    (widthPx zoom aspect screenH : ℚ) : List (ℝ × ℝ) :=
  let tLen := tr.2 - tr.1
  if tLen ≤ 0 then []
  else
    let total := parTotalSamples tLen
    let step := tLen / total
    let path := parPathList f tr.1 step total
    let pixelSizeWorld := 2 / zoom / screenH
    let halfW : ℝ := ((widthPx * (1/2) * pixelSizeWorld : ℚ) : ℝ)
    let maxJumpSq := (2 / zoom * JUMP_THRESHOLD_FACTOR) ^ 2
    (List.range (path.length - 1)).flatMap fun i =>
      parSegVerts (path.getD i none) (path.getD (i + 1) none) halfW maxJumpSq

/-! ### An IEEE-style float model for mesh.rs

The parametric-surface mesher feeds possibly non-finite samples into
arithmetic (the forward-difference normals), so `Option` is not enough:
`Flt α` models a float as an exact finite value of `α`, `+∞`, `-∞` or NaN
(the two IEEE zeroes and rounding are identified with the exact value). -/

inductive Flt (α : Type) where
  | fin (x : α)
  | pinf
  | ninf
  | nan
deriving DecidableEq

/-- IEEE negation on the float model. -/
def Flt.neg : Flt ℚ → Flt ℚ
  | fin x => fin (-x)
  | pinf => ninf
  | ninf => pinf
  | nan => nan

/-- IEEE addition on the float model (opposite infinities give NaN). -/
def Flt.add : Flt ℚ → Flt ℚ → Flt ℚ
  | nan, _ => nan
  | _, nan => nan
  | pinf, ninf => nan
  | ninf, pinf => nan
  | pinf, _ => pinf
  | _, pinf => pinf
  | ninf, _ => ninf
  | _, ninf => ninf
  | fin x, fin y => fin (x + y)

/-- IEEE subtraction: `a - b = a + (-b)` exactly. -/
def Flt.sub (a b : Flt ℚ) : Flt ℚ := a.add b.neg

/-- IEEE multiplication on the float model (`0 * ∞ = NaN`). -/
def Flt.mul : Flt ℚ → Flt ℚ → Flt ℚ
  | nan, _ => nan
  | _, nan => nan
  | fin x, fin y => fin (x * y)
  | fin x, pinf => if 0 < x then pinf else if x < 0 then ninf else nan
  | fin x, ninf => if 0 < x then ninf else if x < 0 then pinf else nan
  | pinf, fin y => if 0 < y then pinf else if y < 0 then ninf else nan
  | ninf, fin y => if 0 < y then ninf else if y < 0 then pinf else nan
  | pinf, pinf => pinf
  | pinf, ninf => ninf
  | ninf, pinf => ninf
  | ninf, ninf => pinf

/-- IEEE `<` on the float model: NaN is incomparable. -/
def Flt.lt : Flt ℚ → Flt ℚ → Bool
  | nan, _ => false
  | _, nan => false
  | fin x, fin y => decide (x < y)
  | ninf, ninf => false
  | ninf, fin _ => true
  | ninf, pinf => true
  | fin _, ninf => false
  | pinf, ninf => false
  | pinf, pinf => false
  | pinf, fin _ => false
  | fin _, pinf => true

/-- Rust `f64::is_finite`. -/
def Flt.isFinite {α : Type} : Flt α → Bool
  | fin _ => true
  | _ => false

/-- Rust `f32::is_nan`. -/
def Flt.isNan {α : Type} : Flt α → Bool
  | nan => true
  | _ => false

/-- A MathForest `Vec3` of model floats (vec3.rs, fields x, y, z). -/
def FV3 : Type := Flt ℚ × Flt ℚ × Flt ℚ

/-- Componentwise `Vec3` subtraction (vec3.rs `impl Sub`). -/
def fvSub (a b : FV3) : FV3 :=
  (a.1.sub b.1, a.2.1.sub b.2.1, a.2.2.sub b.2.2)

/-- `Vec3 * f64` scalar multiplication (vec3.rs `impl Mul<f64>`). -/
def fvScale (a : FV3) (s : ℚ) : FV3 :=
  (a.1.mul (.fin s), a.2.1.mul (.fin s), a.2.2.mul (.fin s))

/-- `Vec3::cross` (vec3.rs lines 94-100). -/
def fvCross (a b : FV3) : FV3 :=
  ((a.2.1.mul b.2.2).sub (a.2.2.mul b.2.1),
   (a.2.2.mul b.1).sub (a.1.mul b.2.2),
   (a.1.mul b.2.1).sub (a.2.1.mul b.1))

/-- `Vec3::pow2` (vec3.rs lines 104-106): `x*x + y*y + z*z`. -/
def fvPow2 (a : FV3) : Flt ℚ :=
  ((a.1.mul a.1).add (a.2.1.mul a.2.1)).add (a.2.2.mul a.2.2)

/-- All three components finite (the `mesh.rs` line 49 validity test). -/
def fvFinite (p : FV3) : Bool := p.1.isFinite && p.2.1.isFinite && p.2.2.isFinite

/-- The NaN sentinel position `[f32::NAN; 3]` (mesh.rs line 51). -/
def nanV : FV3 := (.nan, .nan, .nan)

/-- A stored (f32) vector after `unit()`: finite components are reals. -/
def FR3 : Type := Flt ℝ × Flt ℝ × Flt ℝ

/-- The zero vector Vec3::ZERO as stored. -/
def zeroFR : FR3 := (.fin 0, .fin 0, .fin 0)

/-- The default normal `Vec3::new(0.0, 0.0, 1.0)` (mesh.rs line 68). -/
def defaultNormalFR : FR3 := (.fin 0, .fin 0, .fin 1)

/-- One component of `v / l` for `l = sqrt q` with `q` finite positive. -/
noncomputable def fltDivPos (c : Flt ℚ) (q : ℚ) : Flt ℝ :=
  match c with
  | .fin x => .fin ((x : ℝ) / Real.sqrt (q : ℝ))
  | .pinf => .pinf
  | .ninf => .ninf
  | .nan => .nan

/-- One component of `v / l` for `l = +∞`. -/
def fltDivInf (c : Flt ℚ) : Flt ℝ :=
  match c with
  | .fin _ => .fin 0
  | _ => .nan

/-- `Vec3::EPSILON` (vec3.rs line 15). -/
def VEC3_EPSILON : ℚ := 1e-10

/-- `Vec3::unit` (vec3.rs lines 128-135): `l = sqrt(pow2)`; if `l > EPSILON`
then `self / l` else `Vec3::ZERO`.  `sqrt` of NaN or of a negative value is
NaN and fails the comparison; `sqrt q > EPSILON` for `q ≥ 0` is `q > EPS²`. -/
noncomputable def fvUnit (v : FV3) : FR3 :=
  match fvPow2 v with
  | .nan => zeroFR
  | .ninf => zeroFR
  | .pinf => (fltDivInf v.1, fltDivInf v.2.1, fltDivInf v.2.2)
  | .fin q =>
    if q < 0 then zeroFR
    else if VEC3_EPSILON ^ 2 < q then
      (fltDivPos v.1 q, fltDivPos v.2.1 q, fltDivPos v.2.2 q)
    else zeroFR

/-! ### Parametric surface mesher, src/src/graph/d3/mesh.rs -/

/-- The forward-difference epsilon `eps = 1e-9` (mesh.rs line 58). -/
def meshEPS : ℚ := 1e-9

/-- The grid sample coordinate `min + i * step` with
`step = (max - min) / segments` (mesh.rs lines 36-43).  (For `segments = 0`
the Rust step is a float ±∞/NaN while `ℚ` division yields 0; no claim
depends on the coordinate values in that degenerate case.) -/
def gridCoord (r : ℚ × ℚ) (segments i : ℕ) : ℚ :=
  r.1 + i * ((r.2 - r.1) / segments)

/-- The position stored for grid vertex `(i, j)` (mesh.rs lines 45-55 and
72-75): the sample itself, or the NaN sentinel when non-finite. -/
def storedPos (func : ℚ → ℚ → FV3) (ur vr : ℚ × ℚ) (useg vseg : ℕ)
    (i j : ℕ) : FV3 :=
  let pos := func (gridCoord ur useg i) (gridCoord vr vseg j)
  if fvFinite pos then pos else nanV

/-- The normal stored for grid vertex `(i, j)` (mesh.rs lines 50-75): zero
for the sentinel; the unit forward-difference cross product when the
x-components of both neighbor samples are finite; else the default normal. -/
noncomputable def storedNormal (func : ℚ → ℚ → FV3) (ur vr : ℚ × ℚ)
    (useg vseg : ℕ) (i j : ℕ) : FR3 :=
  let u := gridCoord ur useg i
  let v := gridCoord vr vseg j
  let pos := func u v
  if fvFinite pos then
    let posU := func (u + meshEPS) v
    let posV := func u (v + meshEPS)
    if posU.1.isFinite && posV.1.isFinite then
      fvUnit (fvCross (fvScale (fvSub posU pos) (1 / meshEPS))
        (fvScale (fvSub posV pos) (1 / meshEPS)))
    else defaultNormalFR
  else zeroFR

/-- The vertex buffer of `MeshData::new_parametric_surface` (mesh.rs lines
40-77): the `(u_segments+1) × (v_segments+1)` grid in row-major push order. -/
noncomputable def surfVertices (func : ℚ → ℚ → FV3) (ur vr : ℚ × ℚ)
    (useg vseg : ℕ) : List (FV3 × FR3) :=
  (List.range (useg + 1)).flatMap fun i =>
    (List.range (vseg + 1)).map fun j =>
      (storedPos func ur vr useg vseg i j, storedNormal func ur vr useg vseg i j)

/-- `JUMP_THRESHOLD_SQ` (mesh.rs line 84). -/
def JUMP_THRESHOLD_SQ : ℚ := 10 * 10

/-- Squared distance of two stored positions (mesh.rs lines 111-116):
`(Δx)² + (Δy)² + (Δz)²` summed left to right. -/
def posDistSq (p q : FV3) : Flt ℚ :=
  (((p.1.sub q.1).mul (p.1.sub q.1)).add
      ((p.2.1.sub q.2.1).mul (p.2.1.sub q.2.1))).add
    ((p.2.2.sub q.2.2).mul (p.2.2.sub q.2.2))

/-- The `is_valid_tri` closure (mesh.rs lines 104-123): reject when a vertex
x-component is NaN, or when a squared edge length exceeds
`JUMP_THRESHOLD_SQ`. -/
def validTri (p1 p2 p3 : FV3) : Bool :=
  if p1.1.isNan || p2.1.isNan || p3.1.isNan then false
  else
    if Flt.lt (.fin JUMP_THRESHOLD_SQ) (posDistSq p1 p2) ||
        Flt.lt (.fin JUMP_THRESHOLD_SQ) (posDistSq p2 p3) ||
        Flt.lt (.fin JUMP_THRESHOLD_SQ) (posDistSq p3 p1) then false
    else true

/-- The index triples emitted for grid cell `(i, j)` (mesh.rs lines 86-134):
corner indices `a = i*(vseg+1)+j`, `b = a+1`, `d = (i+1)*(vseg+1)+j`,
`c = d+1`; triangle `a-d-b` then triangle `b-d-c`, each under
`is_valid_tri` on the stored positions (`vertices[idx].position` at index
`i*(vseg+1)+j` is `storedPos i j`, the lemma `surfVertices_getD`). -/
def surfCellIdx (func : ℚ → ℚ → FV3) (ur vr : ℚ × ℚ) (useg vseg : ℕ)
    (i j : ℕ) : List ℕ :=
  let a := i * (vseg + 1) + j
  let b := i * (vseg + 1) + j + 1
  let c := (i + 1) * (vseg + 1) + j + 1
  let d := (i + 1) * (vseg + 1) + j
  let pa := storedPos func ur vr useg vseg i j
  let pb := storedPos func ur vr useg vseg i (j + 1)
  let pc := storedPos func ur vr useg vseg (i + 1) (j + 1)
  let pd := storedPos func ur vr useg vseg (i + 1) j
  (if validTri pa pd pb then [a, d, b] else []) ++
    (if validTri pb pd pc then [b, d, c] else [])

/-- The index buffer of `MeshData::new_parametric_surface` (mesh.rs lines
86-135). -/
def surfIndices (func : ℚ → ℚ → FV3) (ur vr : ℚ × ℚ) (useg vseg : ℕ) :
    List ℕ :=
  (List.range useg).flatMap fun i =>
    (List.range vseg).flatMap fun j => surfCellIdx func ur vr useg vseg i j

/-! ### MathForest Vec3 over exact reals (for the 3D solvers that take a
total, finite function object) -/

/-- A MathForest `Vec3` of exact reals. -/
def V3 : Type := ℝ × ℝ × ℝ

/-- `Vec3::new`. -/
def v3 (x y z : ℝ) : V3 := (x, y, z)

/-- Componentwise addition (vec3.rs `impl Add`). -/
def v3add (a b : V3) : V3 := (a.1 + b.1, a.2.1 + b.2.1, a.2.2 + b.2.2)

/-- Componentwise subtraction (vec3.rs `impl Sub`). -/
def v3sub (a b : V3) : V3 := (a.1 - b.1, a.2.1 - b.2.1, a.2.2 - b.2.2)

/-- `Vec3 * f64` (vec3.rs `impl Mul<f64>`). -/
def v3smul (a : V3) (s : ℝ) : V3 := (a.1 * s, a.2.1 * s, a.2.2 * s)

/-- `Vec3::dot` (vec3.rs lines 88-90). -/
def v3dot (a b : V3) : ℝ := a.1 * b.1 + a.2.1 * b.2.1 + a.2.2 * b.2.2

/-- `Vec3::cross` (vec3.rs lines 94-100). -/
def v3cross (a b : V3) : V3 :=
  (a.2.1 * b.2.2 - a.2.2 * b.2.1,
   a.2.2 * b.1 - a.1 * b.2.2,
   a.1 * b.2.1 - a.2.1 * b.1)

/-- `Vec3::pow2` (vec3.rs lines 104-106). -/
def v3pow2 (a : V3) : ℝ := a.1 * a.1 + a.2.1 * a.2.1 + a.2.2 * a.2.2

/-- `Vec3::unit` (vec3.rs lines 128-135): `self / l` when
`l = sqrt(pow2) > EPSILON`, else `Vec3::ZERO`. -/
noncomputable def v3unit (a : V3) : V3 :=
  let l := Real.sqrt (v3pow2 a)
  if (VEC3_EPSILON : ℝ) < l then (a.1 / l, a.2.1 / l, a.2.2 / l)
  else (0, 0, 0)

/-! ### Marching cubes, src/src/graph/d3/implicit_surface.rs

The edge/triangle lookup tables live in `implicit_data.rs`, which is not
among the repository files in the corpus; the solver is therefore
parameterised by the two tables, and `GoodTriRow` states the structure the
spec gives them. -/

/-- Modelled from the spec: the missing `TRI_TABLE` of
src/src/graph/d3/implicit_data.rs ("the per-case triangle list (terminated
by a sentinel value)", "full edge/triangle lookup tables", "256×16
entries").  A row holds `m ≤ 5` triangles of interpolated-edge indices
(0..11) in its first `3*m` slots and the sentinel `-1` from slot `3*m`
through slot 15. -/
def GoodTriRow (row : ℕ → ℤ) : Prop :=
  ∃ m : ℕ, m ≤ 5 ∧ (∀ t < 3 * m, 0 ≤ row t ∧ row t < 12) ∧
    ∀ t ≤ 15, 3 * m ≤ t → row t = -1

/-- The eight corner offsets of a cell (implicit_surface.rs lines 67-70). -/
def cornerOffsets : ℕ → ℕ × ℕ × ℕ := fun n =>
  [((0:ℕ), (0:ℕ), (0:ℕ)), (1, 0, 0), (1, 0, 1), (0, 0, 1),
   (0, 1, 0), (1, 1, 0), (1, 1, 1), (0, 1, 1)].getD n (0, 0, 0)

/-- The scalar-field array index `idx0 + dk*(N+1)² + dj*(N+1) + di` with
`idx0 = k*(N+1)² + j*(N+1) + i` (implicit_surface.rs lines 64 and 79). -/
def globalIdx (rp1 i j k di dj dk : ℕ) : ℕ :=
  k * rp1 * rp1 + j * rp1 + i + (dk * rp1 * rp1 + dj * rp1 + di)

/-- The flat scalar-field array of phase 1 (implicit_surface.rs lines
36-49): entry `k*(N+1)² + j*(N+1) + i` holds `f` at grid point `(i,j,k)`;
the nested fill loops lay the array out exactly as this index decoding. -/
noncomputable def mcValues (func : ℝ → ℝ → ℝ → ℝ) (xr yr zr : ℝ × ℝ)
    (res : ℕ) : List ℝ :=
  let rp1 := res + 1
  (List.range (rp1 * rp1 * rp1)).map fun idx : ℕ =>
    func (xr.1 + ((idx % rp1 : ℕ) : ℝ) * ((xr.2 - xr.1) / res))
      (yr.1 + ((idx / rp1 % rp1 : ℕ) : ℝ) * ((yr.2 - yr.1) / res))
      (zr.1 + ((idx / (rp1 * rp1) : ℕ) : ℝ) * ((zr.2 - zr.1) / res))

/-- Corner world coordinates (implicit_surface.rs lines 84-88). -/
noncomputable def cornerPos (xr yr zr : ℝ × ℝ) (res : ℕ)
    (i j k di dj dk : ℕ) : V3 :=
  (xr.1 + ((i + di : ℕ)) * ((xr.2 - xr.1) / res),
   yr.1 + ((j + dj : ℕ)) * ((yr.2 - yr.1) / res),
   zr.1 + ((k + dk : ℕ)) * ((zr.2 - zr.1) / res))

/-- The 8-bit cube index (implicit_surface.rs lines 72-93): bit `n` is set
when corner `n`'s value is negative (isovalue 0). -/
noncomputable def cubeIndex (vals : ℕ → ℝ) : ℕ :=
  (List.range 8).foldl (fun acc n => if vals n < 0 then acc ||| (1 <<< n) else acc) 0

/-- `vertex_interp` (implicit_surface.rs lines 176-182): guard the zero
denominator, else interpolate `mu = (0 - v1)/(v2 - v1)`. -/
noncomputable def vertexInterp (p1 : V3) (v1 : ℝ) (p2 : V3) (v2 : ℝ) : V3 :=
  if |v2 - v1| < 1e-9 then p1
  else v3add p1 (v3smul (v3sub p2 p1) ((0 - v1) / (v2 - v1)))

/-- The two corner numbers of each of the 12 cube edges
(implicit_surface.rs lines 102-113). -/
def edgeCorners : ℕ → ℕ × ℕ := fun e =>
  [((0:ℕ), (1:ℕ)), (1, 2), (2, 3), (3, 0), (4, 5), (5, 6), (6, 7), (7, 4),
   (0, 4), (1, 5), (2, 6), (3, 7)].getD e (0, 0)

/-- `calc_gradient_normal` (implicit_surface.rs lines 187-197): unit central
difference gradient with `eps = 1e-6`. -/
noncomputable def gradientNormal (func : ℝ → ℝ → ℝ → ℝ) (p : V3) : V3 :=
  let eps : ℝ := 1e-6
  v3unit
    (func (p.1 + eps) p.2.1 p.2.2 - func (p.1 - eps) p.2.1 p.2.2,
     func p.1 (p.2.1 + eps) p.2.2 - func p.1 (p.2.1 - eps) p.2.2,
     func p.1 p.2.1 (p.2.2 + eps) - func p.1 p.2.1 (p.2.2 - eps))

/-- The triangle-table reading loop (implicit_surface.rs lines 116-121):
`for t in (0..16).step_by(3)`, stop at the `-1` sentinel, else read the
triple at `t`, `t+1`, `t+2`. -/
def triLoop (row : ℕ → ℤ) (t : ℕ) : List (ℤ × ℤ × ℤ) :=
  if h : t < 16 then
    if row t = -1 then []
    else (row t, row (t + 1), row (t + 2)) :: triLoop row (t + 3)
  else []
termination_by 16 - t
decreasing_by omega

/-- The vertices one cell `(k, j, i)` pushes (implicit_surface.rs lines
59-149): skip when the edge mask is zero; interpolate the masked edges into
`vert_list` (unset entries stay `Vec3::ZERO`); emit three vertices with
gradient normals per triangle-table triple. -/
noncomputable def mcCellVerts (func : ℝ → ℝ → ℝ → ℝ)
    (edgeTable : ℕ → ℕ) (triTable : ℕ → ℕ → ℤ) (xr yr zr : ℝ × ℝ)
    (res : ℕ) (k j i : ℕ) : List (V3 × V3) :=
  let rp1 := res + 1
  let vals : ℕ → ℝ := fun n =>
    (mcValues func xr yr zr res).getD
      (globalIdx rp1 i j k (cornerOffsets n).1 (cornerOffsets n).2.1
        (cornerOffsets n).2.2) 0
  let pos : ℕ → V3 := fun n =>
    cornerPos xr yr zr res i j k (cornerOffsets n).1 (cornerOffsets n).2.1
      (cornerOffsets n).2.2
  let ci := cubeIndex vals
  let edges := edgeTable ci
  if edges = 0 then []
  else
    let vl : ℕ → V3 := fun e =>
      if edges.testBit e then
        vertexInterp (pos (edgeCorners e).1) (vals (edgeCorners e).1)
          (pos (edgeCorners e).2) (vals (edgeCorners e).2)
      else (0, 0, 0)
    (triLoop (triTable ci) 0).flatMap fun tpl =>
      let p1 := vl tpl.1.toNat
      let p2 := vl tpl.2.1.toNat
      let p3 := vl tpl.2.2.toNat
      [(p1, gradientNormal func p1), (p2, gradientNormal func p2),
       (p3, gradientNormal func p3)]

/-- One step of the serial merge (implicit_surface.rs lines 160-168): append
the part's vertices, append its indices rebased by the running vertex count
`base_index`, and advance the count.  The same append-with-offset shape
realises the per-layer `index_counter` loop (lines 145-148), where a cell's
index contribution is `c, c+1, ..., c+len-1`. -/
def mergeStep {α : Type} (acc : List α × List ℕ × ℕ) (p : List α × List ℕ) :
    List α × List ℕ × ℕ :=
  (acc.1 ++ p.1, acc.2.1 ++ p.2.map (· + acc.2.2), acc.2.2 + p.1.length)

/-- The phase-3 serial merge (implicit_surface.rs lines 155-169): rebase
each part's indices by the running vertex count, then append. -/
def mergeParts {α : Type} (parts : List (List α × List ℕ)) :
    List α × List ℕ :=
  ((parts.foldl mergeStep ([], [], 0)).1, (parts.foldl mergeStep ([], [], 0)).2.1)

/-- One z-layer's worker of phase 2 (implicit_surface.rs lines 53-153): the
cells in `(j, i)` loop order, each contributing its vertices and the running
`index_counter` values `c, c+1, ..., c + len - 1` (each triangle pushes
three vertices and the indices `c, c+1, c+2`). -/
noncomputable def mcLayer (func : ℝ → ℝ → ℝ → ℝ) (edgeTable : ℕ → ℕ)
    (triTable : ℕ → ℕ → ℤ) (xr yr zr : ℝ × ℝ) (res : ℕ) (k : ℕ) :
    List (V3 × V3) × List ℕ :=
  mergeParts
    (((List.range res).flatMap fun j =>
        (List.range res).map fun i =>
          mcCellVerts func edgeTable triTable xr yr zr res k j i).map
      fun cv => (cv, List.range cv.length))

/-- `ImplicitSurfaceSolver::solve` (implicit_surface.rs lines 17-172):
merge the per-layer parts in layer index order. -/
noncomputable def mcSolve (func : ℝ → ℝ → ℝ → ℝ) (edgeTable : ℕ → ℕ)
    (triTable : ℕ → ℕ → ℤ) (xr yr zr : ℝ × ℝ) (res : ℕ) :
    List (V3 × V3) × List ℕ :=
  mergeParts ((List.range res).map (mcLayer func edgeTable triTable xr yr zr res))

/-! ### Tube mesher, src/src/graph/d3/parametric_curve.rs -/

/-- The path parameter of ring `i`: `t_min + i * t_step` with
`t_step = (t_max - t_min) / path_segments` (parametric_curve.rs lines
30-44). -/
noncomputable def tubeT (tr : ℝ × ℝ) (pathSegments i : ℕ) : ℝ :=
  tr.1 + i * ((tr.2 - tr.1) / pathSegments)

/-- The forward-difference unit tangent at parameter `t`
(parametric_curve.rs lines 47-52, `eps = 1e-9`). -/
noncomputable def tubeTangent (func : ℝ → V3) (t : ℝ) : V3 :=
  v3unit (v3sub (func (t + 1e-9)) (func t))

/-- The local frame at parameter `t` (parametric_curve.rs lines 43-69):
helper axis `J`, swapped to `K` when `|tangent ⬝ J| > 0.99`;
`normal = unit(tangent × helper)`, `binormal = unit(tangent × normal)`.
Returns `(pos, normal, binormal)`. -/
noncomputable def tubeFrame (func : ℝ → V3) (t : ℝ) : V3 × V3 × V3 :=
  let pos := func t
  let tangent := tubeTangent func t
  let helper : V3 := if 0.99 < |v3dot tangent (0, 1, 0)| then (0, 0, 1) else (0, 1, 0)
  let normal := v3unit (v3cross tangent helper)
  let binormal := v3unit (v3cross tangent normal)
  (pos, normal, binormal)

/-- The cross-section offset direction of ring `i`, angular step `j`
(parametric_curve.rs lines 76-83): `cosθ·normal + sinθ·binormal` with
`θ = 2π·j/tube_segments`. -/
noncomputable def tubeOffsetDir (func : ℝ → V3) (tr : ℝ × ℝ)
    (pathSegments tubeSegments i j : ℕ) : V3 :=
  let fr := tubeFrame func (tubeT tr pathSegments i)
  let theta := ((j : ℝ) / (tubeSegments : ℝ)) * (2 * Real.pi)
  v3add (v3smul fr.2.1 (Real.cos theta)) (v3smul fr.2.2 (Real.sin theta))

/-- The stored per-vertex tube normal: `offset_dir.unit()`
(parametric_curve.rs line 87). -/
noncomputable def tubeRingNormal (func : ℝ → V3) (tr : ℝ × ℝ)
    (pathSegments tubeSegments i j : ℕ) : V3 :=
  v3unit (tubeOffsetDir func tr pathSegments tubeSegments i j)

/-- One tube vertex (parametric_curve.rs lines 84-93):
`position = ring-center + offset_dir * radius`, normal as stored. -/
noncomputable def tubeVertex (func : ℝ → V3) (tr : ℝ × ℝ) (radius : ℝ)
    (pathSegments tubeSegments i j : ℕ) : V3 × V3 :=
  (v3add (tubeFrame func (tubeT tr pathSegments i)).1
      (v3smul (tubeOffsetDir func tr pathSegments tubeSegments i j) radius),
   tubeRingNormal func tr pathSegments tubeSegments i j)

/-- The tube vertex buffer (parametric_curve.rs lines 72-95):
`path_segments+1` rings of `tube_segments+1` vertices. -/
noncomputable def tubeVertices (func : ℝ → V3) (tr : ℝ × ℝ) (radius : ℝ)
    (pathSegments tubeSegments : ℕ) : List (V3 × V3) :=
  (List.range (pathSegments + 1)).flatMap fun i =>
    (List.range (tubeSegments + 1)).map fun j =>
      tubeVertex func tr radius pathSegments tubeSegments i j

/-- The tube index buffer (parametric_curve.rs lines 97-115): two triangles
`a-d-b`, `b-d-c` per angular step per ring pair. -/
def tubeIndices (pathSegments tubeSegments : ℕ) : List ℕ :=
  let vpr := tubeSegments + 1
  (List.range pathSegments).flatMap fun i =>
    (List.range tubeSegments).flatMap fun j =>
      [i * vpr + j, (i + 1) * vpr + j, i * vpr + j + 1,
       i * vpr + j + 1, (i + 1) * vpr + j, (i + 1) * vpr + j + 1]

/-- A `MeshData` (mesh.rs lines 15-18) over a vertex type. -/
structure Mesh (ν : Type) where
  vertices : List ν
  indices : List ℕ

/-- `ParametricCurveSolver::solve` (parametric_curve.rs lines 17-118). -/
noncomputable def tubeSolve (func : ℝ → V3) (tr : ℝ × ℝ) (radius : ℝ)
    (tubeSegments pathSegments : ℕ) : Mesh (V3 × V3) :=
  ⟨tubeVertices func tr radius pathSegments tubeSegments,
   tubeIndices pathSegments tubeSegments⟩

/-- `MeshData::new_parametric_surface` bundled (mesh.rs lines 22-137). -/
noncomputable def surfSolve (func : ℚ → ℚ → FV3) (ur vr : ℚ × ℚ)
    (useg vseg : ℕ) : Mesh (FV3 × FR3) :=
  ⟨surfVertices func ur vr useg vseg, surfIndices func ur vr useg vseg⟩

/-- `ImplicitSurfaceSolver::solve` bundled as a `MeshData`. -/
noncomputable def mcSolveMesh (func : ℝ → ℝ → ℝ → ℝ) (edgeTable : ℕ → ℕ)
    (triTable : ℕ → ℕ → ℤ) (xr yr zr : ℝ × ℝ) (res : ℕ) : Mesh (V3 × V3) :=
  ⟨(mcSolve func edgeTable triTable xr yr zr res).1,
   (mcSolve func edgeTable triTable xr yr zr res).2⟩

/-- The container invariant of `MeshData` for triangle topology (spec §3):
every index addresses a vertex and the index count is a multiple of 3. -/
def meshInv {ν : Type} (m : Mesh ν) : Bool :=
  m.indices.all (fun idx => decide (idx < m.vertices.length)) &&
    decide (m.indices.length % 3 = 0)

/-! ### Named helper definitions for the implicit-2D claims -/

/-- The horizontal grid step of the implicit 2D solver. -/
def impXStep (xr : ℚ × ℚ) (screenW : ℕ) : ℚ :=
  (xr.2 - xr.1) / (gridClamp (screenW / 2))

/-- The vertical grid step of the implicit 2D solver. -/
def impYStep (yr : ℚ × ℚ) (screenH : ℕ) : ℚ :=
  (yr.2 - yr.1) / (gridClamp (screenH / 2))

/-- The sign-change condition on the horizontal edge of cell `(i, j)`. -/
def impHCross (f : ℚ → ℚ → ℚ) (xr yr : ℚ × ℚ) (screenW screenH : ℕ)
    (i j : ℕ) : Prop :=
  f (xr.1 + i * impXStep xr screenW) (yr.1 + j * impYStep yr screenH) *
    f (xr.1 + i * impXStep xr screenW + impXStep xr screenW)
      (yr.1 + j * impYStep yr screenH) ≤ 0

/-- The sign-change condition on the vertical edge of cell `(i, j)`. -/
def impVCross (f : ℚ → ℚ → ℚ) (xr yr : ℚ × ℚ) (screenW screenH : ℕ)
    (i j : ℕ) : Prop :=
  f (xr.1 + i * impXStep xr screenW) (yr.1 + j * impYStep yr screenH) *
    f (xr.1 + i * impXStep xr screenW)
      (yr.1 + j * impYStep yr screenH + impYStep yr screenH) ≤ 0

/-- The interpolated point on the horizontal edge of cell `(i, j)`. -/
def impHPoint (f : ℚ → ℚ → ℚ) (xr yr : ℚ × ℚ) (screenW screenH : ℕ)
    (i j : ℕ) : ℚ × ℚ :=
  let x := xr.1 + i * impXStep xr screenW
  let y := yr.1 + j * impYStep yr screenH
  (x + linearInterp (f x y) (f (x + impXStep xr screenW) y) * impXStep xr screenW, y)

/-- The interpolated point on the vertical edge of cell `(i, j)`. -/
def impVPoint (f : ℚ → ℚ → ℚ) (xr yr : ℚ × ℚ) (screenW screenH : ℕ)
    (i j : ℕ) : ℚ × ℚ :=
  let x := xr.1 + i * impXStep xr screenW
  let y := yr.1 + j * impYStep yr screenH
  (x, y + linearInterp (f x y) (f x (y + impYStep yr screenH)) * impYStep yr screenH)

/-- The circle field `f(x, y) = x² + y² - 1` of spec §8 test 3. -/
def circleF : ℚ → ℚ → ℚ := fun x y => x * x + y * y - 1

/-- The Euclidean norm of an emitted point. -/
noncomputable def norm2 (p : ℚ × ℚ) : ℝ :=
  Real.sqrt (((p.1 : ℝ)) ^ 2 + ((p.2 : ℝ)) ^ 2)

/-! ### Concrete instances used by counterexamples and witnesses -/

/-- A surface function that is non-finite at exactly the grid sample
`(u, v) = (0, 0)` of the `[0,1]²` 1×1 grid, with the samples at `(1, 0)` and
`(0, 1)` lying 20 world units apart. -/
def cexSurfFunc7 : ℚ → ℚ → FV3 := fun u v =>
  if u = 0 ∧ v = 0 then nanV
  else if u = 1 ∧ v = 0 then (.fin 20, .fin 0, .fin 0)
  else (.fin 0, .fin 0, .fin 0)

/-- A surface function whose sample at `(0, 0)` is finite while the
forward-difference neighbor sample at `(eps, 0)` is `+∞` in `y` only (its
x-component stays finite). -/
def cexSurfFunc8 : ℚ → ℚ → FV3 := fun u v =>
  if u = meshEPS ∧ v = 0 then (.fin 0, .pinf, .fin 0)
  else if u = 0 ∧ v = meshEPS then (.fin 0, .fin 0, .fin meshEPS)
  else (.fin 0, .fin 0, .fin  0)

/-- A surface function that is non-finite away from the sample `(0, 0)`,
used to reach the default-normal fallback branch. -/
def witSurfFunc8 : ℚ → ℚ → FV3 := fun u v =>
  if u = 0 ∧ v = 0 then (.fin 0, .fin 0, .fin 0) else nanV

/-! ## General helper lemmas -/

theorem length_grid {α : Type} (n m : ℕ) (g : ℕ → ℕ → α) :
    ((List.range n).flatMap fun i => (List.range m).map (g i)).length = n * m := by
  induction n with
  | zero => simp
  | succ n ih => rw [List.range_succ]; simp [ih, Nat.succ_mul]

theorem mem_if_singleton {α : Type} (c : Prop) [Decidable c] (a b : α) :
    a ∈ (if c then [b] else []) ↔ c ∧ a = b := by
  split <;> simp_all

theorem sublist_flatMap_of_mem {α β : Type} {L : List α} {g : α → List β}
    {x : α} (hx : x ∈ L) : (g x).Sublist (L.flatMap g) := by
  induction L with
  | nil => cases hx
  | cons y L ih =>
    rcases List.mem_cons.mp hx with h | h
    · subst h; exact List.sublist_append_left _ _
    · exact (ih h).trans (List.sublist_append_right _ _)

/-! ## Claim C1: degenerate input -/

/-- Claim C1 counterexample: the claim says every solver returns an empty
buffer when a supplied domain range has zero or negative length; but the
tube mesher, given the zero-length t-range `(0, 0)`, still returns its full
`(path_segments+1)·(tube_segments+1) = 4` vertex grid. -/
theorem c1_counterexample :
    (tubeSolve (fun _ => ((0 : ℝ), 0, 0)) (0, 0) 1 1 1).vertices ≠ [] := by
  have h4 : (tubeSolve (fun _ => ((0 : ℝ), 0, 0)) (0, 0) 1 1 1).vertices.length = 4 := by
    simp only [tubeSolve, tubeVertices, length_grid]
  intro he
  rw [he] at h4
  simp at h4

/-- Claim C1 amended: only the explicit 2D solver (empty buffer when the
x-range length is ≤ 0 or the screen width is 0) and the parametric 2D solver
(empty buffer when the t-range length is ≤ 0) guard degenerate input; the
implicit 2D solver and the three 3D meshers do not. -/
theorem c1_amended (f : ℚ → Option ℚ) (xr : ℚ × ℚ) (widthPx zoom : ℚ)
    (screenW : ℕ) (screenH : ℚ) (g : ℚ → Option (ℚ × ℚ)) (tr : ℚ × ℚ)
    (w2 z2 a2 h2 : ℚ) (hx : xr.2 - xr.1 ≤ 0 ∨ screenW = 0)
    (ht : tr.2 - tr.1 ≤ 0) :
    explicitSolve f xr widthPx zoom screenW screenH = [] ∧
      parametricSolve g tr w2 z2 a2 h2 = [] :=
  ⟨if_pos hx, if_pos ht⟩

/-- Claim C1 witness: both guarded solvers at concrete degenerate domains. -/
theorem c1_amended_witness :
    explicitSolve (fun _ => some 0) (0, 0) 1 1 1 1 = [] ∧
      parametricSolve (fun _ => some (0, 0)) (1, 0) 1 1 1 1 = [] :=
  c1_amended (fun _ => some 0) (0, 0) 1 1 1 1 (fun _ => some (0, 0)) (1, 0)
    1 1 1 1 (Or.inl (by norm_num)) (by norm_num)

/-! ## Claim C4: asymptote culling in the explicit solver -/

/-- Claim C4: in the explicit curve solver, an adjacent sample pair whose
y-values are both finite but differ by more than
`jump_threshold = ASYMPTOTE_THRESHOLD_FACTOR * (2 / zoom)` emits no
vertices: the ribbon breaks there. -/
theorem c4_asymptote_culling (x0 x1 y0 y1 : ℚ) (halfW : ℝ) (zoom : ℚ)
    (hjump : |y1 - y0| > expJumpThreshold zoom) :
    expSegVerts (x0, some y0) (x1, some y1) halfW (expJumpThreshold zoom) = [] := by
  simp only [expSegVerts]
  exact if_pos hjump

/-- Claim C4 witness: at `zoom = 1` the threshold is `20`; the pair
`y0 = 0, y1 = 100` is culled. -/
theorem c4_witness :
    expSegVerts (0, some 0) (1, some 100) 0 (expJumpThreshold 1) = [] :=
  c4_asymptote_culling 0 1 0 100 0 1 (by norm_num [expJumpThreshold,
    ASYMPTOTE_THRESHOLD_FACTOR])

/-! ## Claim C8: the parametric-surface normal fallback -/

/-- Claim C8 amended: the fallback to the fixed default normal triggers on
the x-components alone — when the vertex sample is finite and the
x-component of either forward-difference neighbor sample is non-finite, the
default normal is stored (a neighbor that is non-finite only in y or z does
not trigger it, see the counterexample). -/
theorem c8_amended (func : ℚ → ℚ → FV3) (ur vr : ℚ × ℚ) (useg vseg i j : ℕ)
    (hfin : fvFinite (func (gridCoord ur useg i) (gridCoord vr vseg j)) = true)
    (hx : (func (gridCoord ur useg i + meshEPS) (gridCoord vr vseg j)).1.isFinite = false ∨
      (func (gridCoord ur useg i) (gridCoord vr vseg j + meshEPS)).1.isFinite = false) :
    storedNormal func ur vr useg vseg i j = defaultNormalFR := by
  simp only [storedNormal]
  rcases hx with h | h <;> simp [hfin, h]

theorem gridCoord01_zero : gridCoord (0, 1) 1 0 = 0 := by
  norm_num [gridCoord]

theorem gridCoord01_one : gridCoord (0, 1) 1 1 = 1 := by
  norm_num [gridCoord]

/-- Claim C8 witness: a vertex with finite sample whose eps-neighbors are
NaN receives the default normal. -/
theorem c8_witness :
    storedNormal witSurfFunc8 (0, 1) (0, 1) 1 1 0 0 = defaultNormalFR := by
  apply c8_amended
  · rw [gridCoord01_zero]
    norm_num [witSurfFunc8, fvFinite, Flt.isFinite]
  · left
    rw [gridCoord01_zero]
    norm_num [witSurfFunc8, meshEPS, nanV, Flt.isFinite]

/-- Claim C8 counterexample: at grid vertex `(0, 0)` of `cexSurfFunc8` the
sampled position is finite and the `u`-neighbor sample is non-finite (`+∞`
in y), so the claim requires the default normal; but the neighbor's
x-component is finite, the cross-product path runs, `∞·0` makes the length
NaN, and `unit()` stores `Vec3::ZERO` — not the default normal. -/
theorem c8_counterexample :
    fvFinite (cexSurfFunc8 (gridCoord (0, 1) 1 0) (gridCoord (0, 1) 1 0)) = true ∧
      fvFinite (cexSurfFunc8 (gridCoord (0, 1) 1 0 + meshEPS) (gridCoord (0, 1) 1 0)) = false ∧
      storedNormal cexSurfFunc8 (0, 1) (0, 1) 1 1 0 0 = zeroFR ∧
      zeroFR ≠ defaultNormalFR := by
  have hPos : cexSurfFunc8 0 0 = (.fin 0, .fin 0, .fin 0) := by
    norm_num [cexSurfFunc8, meshEPS]
  have hU : cexSurfFunc8 (0 + meshEPS) 0 = (.fin 0, .pinf, .fin 0) := by
    norm_num [cexSurfFunc8, meshEPS]
  have hV : cexSurfFunc8 0 (0 + meshEPS) = (.fin 0, .fin 0, .fin meshEPS) := by
    norm_num [cexSurfFunc8, meshEPS]
  refine ⟨?_, ?_, ?_, ?_⟩
  · rw [gridCoord01_zero, hPos]
    norm_num [fvFinite, Flt.isFinite]
  · rw [gridCoord01_zero, hU]
    norm_num [fvFinite, Flt.isFinite]
  · simp only [storedNormal, gridCoord01_zero, hPos, hU, hV]
    norm_num [fvFinite, Flt.isFinite, fvSub, fvScale, fvCross, fvPow2,
      fvUnit, Flt.sub, Flt.add, Flt.neg, Flt.mul, meshEPS]
  · intro h
    have h3 := congrArg (fun t : FR3 => t.2.2) h
    simp only [zeroFR, defaultNormalFR, Flt.fin.injEq] at h3
    exact zero_ne_one h3

/-! ## Claim C2: the MeshData container invariant -/

theorem mergeFold_inv {α : Type} (parts : List (List α × List ℕ)) :
    ∀ acc : List α × List ℕ × ℕ,
      (∀ p ∈ parts, ∀ ix ∈ p.2, ix < p.1.length) →
      (∀ ix ∈ acc.2.1, ix < acc.1.length) → acc.2.2 = acc.1.length →
      (∀ ix ∈ (parts.foldl mergeStep acc).2.1,
          ix < (parts.foldl mergeStep acc).1.length) ∧
        (parts.foldl mergeStep acc).2.2 = (parts.foldl mergeStep acc).1.length := by
  induction parts with
  | nil => exact fun acc _ hacc hlen => ⟨hacc, hlen⟩
  | cons p parts ih =>
    intro acc h hacc hlen
    simp only [List.foldl_cons]
    apply ih
    · exact fun q hq => h q (List.mem_cons_of_mem _ hq)
    · intro ix hix
      simp only [mergeStep, List.mem_append, List.mem_map] at hix
      simp only [mergeStep, List.length_append]
      rcases hix with hix | ⟨y, hy, rfl⟩
      · exact lt_of_lt_of_le (hacc ix hix) (Nat.le_add_right _ _)
      · have hyb := h p (List.mem_cons_self _ _) y hy
        omega
    · simp [mergeStep, hlen]

theorem mergeFold_idx_len {α : Type} (parts : List (List α × List ℕ)) :
    ∀ acc : List α × List ℕ × ℕ,
      (parts.foldl mergeStep acc).2.1.length =
        acc.2.1.length + ((parts.map fun p => p.2.length).sum) := by
  induction parts with
  | nil => simp
  | cons p parts ih =>
    intro acc
    simp only [List.foldl_cons, List.map_cons, List.sum_cons]
    rw [ih]
    simp [mergeStep]
    omega

theorem mergeParts_inv {α : Type} (parts : List (List α × List ℕ))
    (h : ∀ p ∈ parts, ∀ ix ∈ p.2, ix < p.1.length) :
    ∀ ix ∈ (mergeParts parts).2, ix < (mergeParts parts).1.length :=
  (mergeFold_inv parts ([], [], 0) h (by simp) (by simp)).1

theorem mergeParts_idx_len {α : Type} (parts : List (List α × List ℕ)) :
    (mergeParts parts).2.length = ((parts.map fun p => p.2.length).sum) := by
  have := mergeFold_idx_len parts ([], [], 0)
  simpa [mergeParts] using this

theorem flatMap_length_dvd {α β : Type} (d : ℕ) (L : List α) (g : α → List β)
    (h : ∀ x ∈ L, d ∣ (g x).length) : d ∣ (L.flatMap g).length := by
  induction L with
  | nil => simp
  | cons x L ih =>
    simp only [List.flatMap_cons, List.length_append]
    exact Nat.dvd_add (h x (List.mem_cons_self _ _))
      (ih fun y hy => h y (List.mem_cons_of_mem _ hy))

theorem mcCellVerts_length_dvd (func : ℝ → ℝ → ℝ → ℝ) (edgeTable : ℕ → ℕ)
    (triTable : ℕ → ℕ → ℤ) (xr yr zr : ℝ × ℝ) (res k j i : ℕ) :
    3 ∣ (mcCellVerts func edgeTable triTable xr yr zr res k j i).length := by
  rw [mcCellVerts]
  split
  · simp
  · exact flatMap_length_dvd 3 _ _ (fun tpl _ => by simp)

theorem meshInv_eq_true {ν : Type} (m : Mesh ν) :
    meshInv m = true ↔
      (∀ ix ∈ m.indices, ix < m.vertices.length) ∧ m.indices.length % 3 = 0 := by
  simp [meshInv, List.all_eq_true]

theorem mcLayer_inv (func : ℝ → ℝ → ℝ → ℝ) (edgeTable : ℕ → ℕ)
    (triTable : ℕ → ℕ → ℤ) (xr yr zr : ℝ × ℝ) (res k : ℕ) :
    ∀ ix ∈ (mcLayer func edgeTable triTable xr yr zr res k).2,
      ix < (mcLayer func edgeTable triTable xr yr zr res k).1.length := by
  rw [mcLayer]
  apply mergeParts_inv
  intro p hp ix hix
  simp only [List.mem_map] at hp
  obtain ⟨cv, _, rfl⟩ := hp
  simpa using hix

theorem mcLayer_idx_dvd (func : ℝ → ℝ → ℝ → ℝ) (edgeTable : ℕ → ℕ)
    (triTable : ℕ → ℕ → ℤ) (xr yr zr : ℝ × ℝ) (res k : ℕ) :
    3 ∣ (mcLayer func edgeTable triTable xr yr zr res k).2.length := by
  rw [mcLayer, mergeParts_idx_len, List.map_map]
  apply List.dvd_sum
  intro x hx
  simp only [List.mem_map, Function.comp] at hx
  obtain ⟨cv, hcv, rfl⟩ := hx
  simp only [List.length_range]
  simp only [List.mem_flatMap, List.mem_map, List.mem_range] at hcv
  obtain ⟨j, _, i, _, rfl⟩ := hcv
  exact mcCellVerts_length_dvd func edgeTable triTable xr yr zr res k j i

theorem surfVertices_length (func : ℚ → ℚ → FV3) (ur vr : ℚ × ℚ)
    (useg vseg : ℕ) :
    (surfVertices func ur vr useg vseg).length = (useg + 1) * (vseg + 1) :=
  length_grid _ _ _

theorem surfCellIdx_mem_bound (func : ℚ → ℚ → FV3) (ur vr : ℚ × ℚ)
    (useg vseg i j : ℕ) (hi : i < useg) (hj : j < vseg) :
    ∀ ix ∈ surfCellIdx func ur vr useg vseg i j, ix < (useg + 1) * (vseg + 1) := by
  intro ix hix
  have hmono : (i + 1) * (vseg + 1) ≤ useg * (vseg + 1) :=
    Nat.mul_le_mul_right _ (by omega)
  have htot : (useg + 1) * (vseg + 1) = useg * (vseg + 1) + (vseg + 1) := by ring
  have hm2 : i * (vseg + 1) ≤ (i + 1) * (vseg + 1) :=
    Nat.mul_le_mul_right _ (by omega)
  simp only [surfCellIdx, List.mem_append] at hix
  rcases hix with h | h <;> rw [List.mem_ite_nil_right] at h <;>
    rcases h with ⟨-, h⟩ <;>
    simp only [List.mem_cons, List.not_mem_nil, or_false] at h <;>
    rcases h with rfl | rfl | rfl <;> omega

theorem surfCellIdx_length_dvd (func : ℚ → ℚ → FV3) (ur vr : ℚ × ℚ)
    (useg vseg i j : ℕ) :
    3 ∣ (surfCellIdx func ur vr useg vseg i j).length := by
  rw [surfCellIdx]
  split_ifs <;>
    · simp only [List.length_append, List.length_cons, List.length_nil]
      omega

theorem tubeVertices_length (func : ℝ → V3) (tr : ℝ × ℝ) (radius : ℝ)
    (pathSegments tubeSegments : ℕ) :
    (tubeVertices func tr radius pathSegments tubeSegments).length =
      (pathSegments + 1) * (tubeSegments + 1) :=
  length_grid _ _ _

theorem tubeIndices_mem_bound (pathSegments tubeSegments : ℕ) :
    ∀ ix ∈ tubeIndices pathSegments tubeSegments,
      ix < (pathSegments + 1) * (tubeSegments + 1) := by
  intro ix hix
  simp only [tubeIndices, List.mem_flatMap, List.mem_range] at hix
  obtain ⟨i, hi, j, hj, h⟩ := hix
  have hmono : (i + 1) * (tubeSegments + 1) ≤ pathSegments * (tubeSegments + 1) :=
    Nat.mul_le_mul_right _ (by omega)
  have htot : (pathSegments + 1) * (tubeSegments + 1) =
      pathSegments * (tubeSegments + 1) + (tubeSegments + 1) := by ring
  have hm2 : i * (tubeSegments + 1) ≤ (i + 1) * (tubeSegments + 1) :=
    Nat.mul_le_mul_right _ (by omega)
  simp only [List.mem_cons, List.not_mem_nil, or_false] at h
  rcases h with rfl | rfl | rfl | rfl | rfl | rfl <;> omega

/-- Claim C2: every `MeshData` returned by the three 3D meshers — the
marching cubes solver (through its index-rebasing serial merge, for any
edge/triangle tables), the parametric surface mesher, and the tube mesher —
satisfies the container invariant: every index is strictly below the vertex
count, and the index count is a multiple of 3. -/
theorem c2_mesh_invariants :
    (∀ (func : ℝ → ℝ → ℝ → ℝ) (edgeTable : ℕ → ℕ) (triTable : ℕ → ℕ → ℤ)
        (xr yr zr : ℝ × ℝ) (res : ℕ),
        meshInv (mcSolveMesh func edgeTable triTable xr yr zr res) = true) ∧
      (∀ (func : ℚ → ℚ → FV3) (ur vr : ℚ × ℚ) (useg vseg : ℕ),
        meshInv (surfSolve func ur vr useg vseg) = true) ∧
      (∀ (func : ℝ → V3) (tr : ℝ × ℝ) (radius : ℝ) (tubeSegments pathSegments : ℕ),
        meshInv (tubeSolve func tr radius tubeSegments pathSegments) = true) := by
  refine ⟨?_, ?_, ?_⟩
  · intro func edgeTable triTable xr yr zr res
    rw [meshInv_eq_true]
    constructor
    · intro ix hix
      exact mergeParts_inv _
        (fun p hp => by
          simp only [List.mem_map, List.mem_range] at hp
          obtain ⟨k, _, rfl⟩ := hp
          exact mcLayer_inv func edgeTable triTable xr yr zr res k) ix hix
    · have hdvd : 3 ∣ (mcSolve func edgeTable triTable xr yr zr res).2.length := by
        rw [mcSolve, mergeParts_idx_len, List.map_map]
        apply List.dvd_sum
        intro x hx
        simp only [List.mem_map, Function.comp, List.mem_range] at hx
        obtain ⟨k, _, rfl⟩ := hx
        exact mcLayer_idx_dvd func edgeTable triTable xr yr zr res k
      show (mcSolve func edgeTable triTable xr yr zr res).2.length % 3 = 0
      omega
  · intro func ur vr useg vseg
    rw [meshInv_eq_true]
    constructor
    · intro ix hix
      show ix < (surfVertices func ur vr useg vseg).length
      rw [surfVertices_length]
      simp only [surfSolve, surfIndices, List.mem_flatMap, List.mem_range] at hix
      obtain ⟨i, hi, j, hj, h⟩ := hix
      exact surfCellIdx_mem_bound func ur vr useg vseg i j hi hj ix h
    · have hdvd : 3 ∣ (surfIndices func ur vr useg vseg).length := by
        apply flatMap_length_dvd
        intro i _
        apply flatMap_length_dvd
        intro j _
        exact surfCellIdx_length_dvd func ur vr useg vseg i j
      show (surfIndices func ur vr useg vseg).length % 3 = 0
      omega
  · intro func tr radius tubeSegments pathSegments
    rw [meshInv_eq_true]
    constructor
    · intro ix hix
      show ix < (tubeVertices func tr radius pathSegments tubeSegments).length
      rw [tubeVertices_length]
      exact tubeIndices_mem_bound pathSegments tubeSegments ix hix
    · have hdvd : 3 ∣ (tubeIndices pathSegments tubeSegments).length := by
        apply flatMap_length_dvd
        intro i _
        apply flatMap_length_dvd
        intro j _
        simp only [List.length_cons, List.length_nil]
        omega
      show (tubeIndices pathSegments tubeSegments).length % 3 = 0
      omega

/-! ## Claim C3: all internal indexing stays in bounds -/

theorem globalIdx_bound (res i j k di dj dk : ℕ) (hi : i < res) (hj : j < res)
    (hk : k < res) (hdi : di ≤ 1) (hdj : dj ≤ 1) (hdk : dk ≤ 1) :
    globalIdx (res + 1) i j k di dj dk < (res + 1) * (res + 1) * (res + 1) := by
  have hsplit : globalIdx (res + 1) i j k di dj dk =
      (k + dk) * ((res + 1) * (res + 1)) + (j + dj) * (res + 1) + (i + di) := by
    unfold globalIdx; ring
  have h1 : (k + dk) * ((res + 1) * (res + 1)) ≤ res * ((res + 1) * (res + 1)) :=
    Nat.mul_le_mul_right _ (by omega)
  have h2 : (j + dj) * (res + 1) ≤ res * (res + 1) :=
    Nat.mul_le_mul_right _ (by omega)
  have h3 : (res + 1) * (res + 1) * (res + 1) =
      res * ((res + 1) * (res + 1)) + res * (res + 1) + (res + 1) := by ring
  omega

theorem triLoop_entries_aux (row : ℕ → ℤ) (m : ℕ)
    (hbound : ∀ t < 3 * m, 0 ≤ row t ∧ row t < 12)
    (hsent : ∀ t ≤ 15, 3 * m ≤ t → row t = -1) :
    ∀ n t, 16 - t ≤ n → t % 3 = 0 → ∀ tpl ∈ triLoop row t,
      (0 ≤ tpl.1 ∧ tpl.1 < 12) ∧ (0 ≤ tpl.2.1 ∧ tpl.2.1 < 12) ∧
        (0 ≤ tpl.2.2 ∧ tpl.2.2 < 12) := by
  intro n
  induction n with
  | zero =>
    intro t ht _ tpl htpl
    rw [triLoop, dif_neg (by omega : ¬t < 16)] at htpl
    cases htpl
  | succ n ih =>
    intro t hfuel htmod tpl htpl
    rw [triLoop] at htpl
    by_cases h16 : t < 16
    · rw [dif_pos h16] at htpl
      by_cases hstop : row t = -1
      · rw [if_pos hstop] at htpl; cases htpl
      · rw [if_neg hstop] at htpl
        have htlt : t < 3 * m := by
          by_contra hge
          exact hstop (hsent t (by omega) (by omega))
        have ht2 : t + 2 < 3 * m := by omega
        rcases List.mem_cons.mp htpl with rfl | htail
        · exact ⟨hbound t (by omega), hbound (t + 1) (by omega),
            hbound (t + 2) (by omega)⟩
        · exact ih (t + 3) (by omega) (by omega) tpl htail
    · rw [dif_neg h16] at htpl; cases htpl

/-- Claim C3: the array accesses the claim enumerates all stay in bounds —
the marching-cubes scalar-field index `k(N+1)²+j(N+1)+i` plus any of the
eight corner offsets addresses the `(N+1)³`-element field array; for a
triangle-table row of the structure the spec gives (`GoodTriRow`, modelled
from the spec since implicit_data.rs is absent from the corpus), every
entry the reading loop yields is a valid `vert_list` index in `0..11`; the
parametric-surface mesher's four grid corner lookups address its
`(u_segments+1)(v_segments+1)` vertex buffer; and the 2D solvers' path-pair
lookups at `i` and `i+1` address the sampled path.  The worst observable
outcome of the guarded branches is an empty or trimmed buffer. -/
theorem c3_indexing_in_bounds :
    (∀ res i j k di dj dk : ℕ, i < res → j < res → k < res → di ≤ 1 →
        dj ≤ 1 → dk ≤ 1 →
        globalIdx (res + 1) i j k di dj dk < (res + 1) * (res + 1) * (res + 1)) ∧
      (∀ (func : ℝ → ℝ → ℝ → ℝ) (xr yr zr : ℝ × ℝ) (res : ℕ),
        (mcValues func xr yr zr res).length = (res + 1) * (res + 1) * (res + 1)) ∧
      (∀ row : ℕ → ℤ, GoodTriRow row → ∀ tpl ∈ triLoop row 0,
        (0 ≤ tpl.1 ∧ tpl.1 < 12) ∧ (0 ≤ tpl.2.1 ∧ tpl.2.1 < 12) ∧
          (0 ≤ tpl.2.2 ∧ tpl.2.2 < 12)) ∧
      (∀ (func : ℚ → ℚ → FV3) (ur vr : ℚ × ℚ) (useg vseg i j : ℕ),
        i < useg → j < vseg →
        i * (vseg + 1) + j < (surfVertices func ur vr useg vseg).length ∧
          i * (vseg + 1) + j + 1 < (surfVertices func ur vr useg vseg).length ∧
          (i + 1) * (vseg + 1) + j + 1 < (surfVertices func ur vr useg vseg).length ∧
          (i + 1) * (vseg + 1) + j < (surfVertices func ur vr useg vseg).length) ∧
      (∀ (f : ℚ → Option ℚ) (xMin step : ℚ) (total i : ℕ),
        i < (expPathList f xMin step total).length - 1 →
        i < (expPathList f xMin step total).length ∧
          i + 1 < (expPathList f xMin step total).length) ∧
      (∀ (g : ℚ → Option (ℚ × ℚ)) (tMin step : ℚ) (total i : ℕ),
        i < (parPathList g tMin step total).length - 1 →
        i < (parPathList g tMin step total).length ∧
          i + 1 < (parPathList g tMin step total).length) := by
  refine ⟨globalIdx_bound, ?_, ?_, ?_, ?_, ?_⟩
  · intro func xr yr zr res
    simp only [mcValues, List.length_map, List.length_range]
  · intro row hrow
    obtain ⟨m, -, hbound, hsent⟩ := hrow
    exact triLoop_entries_aux row m hbound hsent 16 0 (by omega) (by omega)
  · intro func ur vr useg vseg i j hi hj
    rw [surfVertices_length]
    have hmono : (i + 1) * (vseg + 1) ≤ useg * (vseg + 1) :=
      Nat.mul_le_mul_right _ (by omega)
    have htot : (useg + 1) * (vseg + 1) = useg * (vseg + 1) + (vseg + 1) := by ring
    have hm2 : i * (vseg + 1) ≤ (i + 1) * (vseg + 1) :=
      Nat.mul_le_mul_right _ (by omega)
    omega
  · intro f xMin step total i hi
    simp only [expPathList, List.length_map, List.length_range] at hi ⊢
    omega
  · intro g tMin step total i hi
    simp only [parPathList, List.length_map, List.length_range] at hi ⊢
    omega

/-! ## Claim C5: implicit-2D edge crossing points -/

theorem linearInterp_bounds (v0 v1 : ℚ) :
    0 ≤ linearInterp v0 v1 ∧ linearInterp v0 v1 ≤ 1 := by
  rw [linearInterp]
  split
  · norm_num
  · exact ⟨le_min (by norm_num) (le_max_left 0 _), min_le_left 1 _⟩

theorem mem_impCellPts (f : ℚ → ℚ → ℚ) (x y xs ys : ℚ) (p : ℚ × ℚ) :
    p ∈ impCellPts f x y xs ys ↔
      (f x y * f (x + xs) y ≤ 0 ∧
          p = (x + linearInterp (f x y) (f (x + xs) y) * xs, y)) ∨
        (f x y * f x (y + ys) ≤ 0 ∧
          p = (x, y + linearInterp (f x y) (f x (y + ys)) * ys)) := by
  simp only [impCellPts, List.mem_append, mem_if_singleton]

theorem mem_implicitSolve (f : ℚ → ℚ → ℚ) (xr yr : ℚ × ℚ) (sw sh : ℕ)
    (p : ℚ × ℚ) :
    p ∈ implicitSolve f xr yr sw sh ↔
      ∃ i < gridClamp (sw / 2), ∃ j < gridClamp (sh / 2),
        p ∈ impCellPts f (xr.1 + i * impXStep xr sw)
            (yr.1 + j * impYStep yr sh) (impXStep xr sw) (impYStep yr sh) := by
  simp only [implicitSolve, impColumn, impXStep, impYStep, List.mem_flatMap,
    List.mem_range]

theorem mem_implicitSolve_points (f : ℚ → ℚ → ℚ) (xr yr : ℚ × ℚ)
    (sw sh : ℕ) (p : ℚ × ℚ) :
    p ∈ implicitSolve f xr yr sw sh ↔
      ∃ i < gridClamp (sw / 2), ∃ j < gridClamp (sh / 2),
        (impHCross f xr yr sw sh i j ∧ p = impHPoint f xr yr sw sh i j) ∨
          (impVCross f xr yr sw sh i j ∧ p = impVPoint f xr yr sw sh i j) := by
  rw [mem_implicitSolve]
  constructor
  · rintro ⟨i, hi, j, hj, hp⟩
    exact ⟨i, hi, j, hj, by
      rw [mem_impCellPts] at hp
      simpa [impHCross, impHPoint, impVCross, impVPoint] using hp⟩
  · rintro ⟨i, hi, j, hj, hp⟩
    exact ⟨i, hi, j, hj, by
      rw [mem_impCellPts]
      simpa [impHCross, impHPoint, impVCross, impVPoint] using hp⟩

/-- Claim C5: `linear_interp` returns a parameter in `[0, 1]` — the exact
midpoint `1/2` when the denominator is below the `1e-15` epsilon, the
clamped interpolation `clamp(-v0/(v1-v0), 0, 1)` otherwise; every point the
implicit solver emits is the interpolated point of some horizontal or
vertical grid edge whose endpoint values satisfy `v0·v1 ≤ 0`; and every
such edge contributes its point to the output. -/
theorem c5_implicit_edge_points :
    (∀ v0 v1 : ℚ, 0 ≤ linearInterp v0 v1 ∧ linearInterp v0 v1 ≤ 1 ∧
        (|v1 - v0| < 1e-15 → linearInterp v0 v1 = 1/2) ∧
        (¬|v1 - v0| < 1e-15 →
          linearInterp v0 v1 = min 1 (max 0 (-v0 / (v1 - v0))))) ∧
      (∀ (f : ℚ → ℚ → ℚ) (xr yr : ℚ × ℚ) (sw sh : ℕ) (p : ℚ × ℚ),
        p ∈ implicitSolve f xr yr sw sh →
        ∃ i < gridClamp (sw / 2), ∃ j < gridClamp (sh / 2),
          (impHCross f xr yr sw sh i j ∧ p = impHPoint f xr yr sw sh i j) ∨
            (impVCross f xr yr sw sh i j ∧ p = impVPoint f xr yr sw sh i j)) ∧
      (∀ (f : ℚ → ℚ → ℚ) (xr yr : ℚ × ℚ) (sw sh : ℕ) (i j : ℕ),
        i < gridClamp (sw / 2) → j < gridClamp (sh / 2) →
        (impHCross f xr yr sw sh i j →
          impHPoint f xr yr sw sh i j ∈ implicitSolve f xr yr sw sh) ∧
          (impVCross f xr yr sw sh i j →
            impVPoint f xr yr sw sh i j ∈ implicitSolve f xr yr sw sh)) := by
  refine ⟨?_, ?_, ?_⟩
  · intro v0 v1
    refine ⟨(linearInterp_bounds v0 v1).1, (linearInterp_bounds v0 v1).2, ?_, ?_⟩
    · intro h
      rw [linearInterp, if_pos h]
    · intro h
      rw [linearInterp, if_neg h]
  · intro f xr yr sw sh p hp
    exact (mem_implicitSolve_points f xr yr sw sh p).mp hp
  · intro f xr yr sw sh i j hi hj
    constructor
    · intro hc
      exact (mem_implicitSolve_points f xr yr sw sh _).mpr
        ⟨i, hi, j, hj, Or.inl ⟨hc, rfl⟩⟩
    · intro hc
      exact (mem_implicitSolve_points f xr yr sw sh _).mpr
        ⟨i, hi, j, hj, Or.inr ⟨hc, rfl⟩⟩

/-! ## Claim C6: implicit circle root-finding accuracy -/

theorem sqrt_sq_add_sq_lipschitz (a b c : ℝ) :
    |Real.sqrt (a ^ 2 + c ^ 2) - Real.sqrt (b ^ 2 + c ^ 2)| ≤ |a - b| := by
  have h := abs_norm_sub_norm_le (⟨a, c⟩ : ℂ) (⟨b, c⟩ : ℂ)
  have h1 : ‖(⟨a, c⟩ : ℂ)‖ = Real.sqrt (a ^ 2 + c ^ 2) := by
    rw [Complex.norm_eq_abs, Complex.abs_apply, Complex.normSq_mk]
    ring_nf
  have h2 : ‖(⟨b, c⟩ : ℂ)‖ = Real.sqrt (b ^ 2 + c ^ 2) := by
    rw [Complex.norm_eq_abs, Complex.abs_apply, Complex.normSq_mk]
    ring_nf
  have h3 : (⟨a, c⟩ : ℂ) - ⟨b, c⟩ = ⟨a - b, 0⟩ := by
    apply Complex.ext <;> simp
  have h4 : ‖(⟨a - b, 0⟩ : ℂ)‖ = |a - b| := by
    rw [Complex.norm_eq_abs, Complex.abs_apply, Complex.normSq_mk]
    rw [show (a - b) * (a - b) + 0 * 0 = (a - b) ^ 2 by ring, Real.sqrt_sq_eq_abs]
  rw [h1, h2, h3, h4] at h
  exact h

theorem exists_root_of_sign_change (g : ℝ → ℝ) (hg : Continuous g) (step : ℝ)
    (hstep : 0 ≤ step) (hprod : g 0 * g step ≤ 0) :
    ∃ s, 0 ≤ s ∧ s ≤ step ∧ g s = 0 := by
  rcases mul_nonpos_iff.mp hprod with ⟨h0, h1⟩ | ⟨h0, h1⟩
  · have hmem : (0 : ℝ) ∈ Set.Icc (g step) (g 0) := ⟨h1, h0⟩
    obtain ⟨s, hs, hgs⟩ := intermediate_value_Icc' hstep hg.continuousOn hmem
    exact ⟨s, hs.1, hs.2, hgs⟩
  · have hmem : (0 : ℝ) ∈ Set.Icc (g 0) (g step) := ⟨h0, h1⟩
    obtain ⟨s, hs, hgs⟩ := intermediate_value_Icc hstep hg.continuousOn hmem
    exact ⟨s, hs.1, hs.2, hgs⟩

theorem gridClamp_pos (v : ℕ) : 0 < gridClamp v := by
  rw [gridClamp]; omega

/-- On the `[-3/2, 3/2]` range the implicit grid step is `3 / grid_dim`. -/
theorem impXStep_circle (sw : ℕ) :
    impXStep (-(3/2), 3/2) sw = 3 / (gridClamp (sw / 2) : ℚ) := by
  rw [impXStep]
  norm_num

theorem impXStep_circle_pos (sw : ℕ) : 0 < impXStep (-(3/2), 3/2) sw := by
  rw [impXStep_circle]
  have := gridClamp_pos (sw / 2)
  positivity

/-- Distance from a clamped interpolated point to a root on the same edge:
if `t ∈ [0,1]`, `s ∈ [0, step]` then `|t·step - s| ≤ step`. -/
theorem interp_dist_le (t s step : ℝ) (ht0 : 0 ≤ t) (ht1 : t ≤ 1)
    (hs0 : 0 ≤ s) (hs1 : s ≤ step) : |t * step - s| ≤ step := by
  have hstep : 0 ≤ step := le_trans hs0 hs1
  have h1 : t * step ≤ step := by nlinarith
  have h2 : 0 ≤ t * step := by positivity
  rw [abs_le]
  constructor <;> nlinarith

theorem impYStep_circle_pos (sh : ℕ) : 0 < impYStep (-(3/2), 3/2) sh := by
  rw [impYStep]
  have := gridClamp_pos (sh / 2)
  have h3 : ((-(3/2) : ℚ), (3/2 : ℚ)).2 - ((-(3/2) : ℚ), (3/2 : ℚ)).1 = 3 := by norm_num
  rw [h3]
  positivity

/-- An edge-point estimate shared by the two edge orientations: if the cast
field has a root within `step` of the base coordinate along one axis and
the emitted point is the `t`-interpolation along that axis, the norm is
within `step` of 1, hence below `2·gridStep`. -/
theorem edge_point_estimate (a c t step gridStep : ℚ) (s : ℝ)
    (ht0 : 0 ≤ t) (ht1 : t ≤ 1) (hs0 : (0:ℝ) ≤ s) (hs1 : s ≤ (step:ℝ))
    (hstep : 0 < step) (hmax : step ≤ gridStep)
    (hroot : ((a:ℝ) + s) ^ 2 + (c:ℝ) ^ 2 = 1) :
    |Real.sqrt ((((a + t * step : ℚ)):ℝ) ^ 2 + ((c:ℝ)) ^ 2) - 1| <
      2 * ((gridStep : ℚ) : ℝ) := by
  have hone : Real.sqrt (((a:ℝ) + (s:ℝ)) ^ 2 + ((c:ℝ)) ^ 2) = 1 := by
    rw [hroot]
    exact Real.sqrt_one
  have hcast : (((a + t * step : ℚ)) : ℝ) = (a:ℝ) + (t:ℝ) * (step:ℝ) := by
    push_cast
    ring
  have hchain :
      |Real.sqrt ((((a + t * step : ℚ)):ℝ) ^ 2 + ((c:ℝ)) ^ 2) - 1| ≤ (step:ℝ) := by
    rw [← hone, hcast]
    calc |Real.sqrt (((a:ℝ) + (t:ℝ) * (step:ℝ)) ^ 2 + ((c:ℝ)) ^ 2) -
          Real.sqrt (((a:ℝ) + (s:ℝ)) ^ 2 + ((c:ℝ)) ^ 2)|
        ≤ |((a:ℝ) + (t:ℝ) * (step:ℝ)) - ((a:ℝ) + (s:ℝ))| :=
          sqrt_sq_add_sq_lipschitz _ _ _
      _ = |(t:ℝ) * (step:ℝ) - (s:ℝ)| := by
          congr 1
          ring
      _ ≤ (step:ℝ) := interp_dist_le _ _ _ (by exact_mod_cast ht0)
          (by exact_mod_cast ht1) hs0 hs1
  have hlt : (step:ℝ) < 2 * ((gridStep : ℚ) : ℝ) := by
    have h1 : (step:ℝ) ≤ ((gridStep : ℚ) : ℝ) := by exact_mod_cast hmax
    have h2 : (0:ℝ) < (step:ℝ) := by exact_mod_cast hstep
    linarith
  linarith

/-- Claim C6: for the circle field over `[-3/2, 3/2]²`, every emitted point
`P` satisfies `| |P| - 1 | < 2·grid_step`, with `grid_step` the larger of
the two cell sides of the clamped-resolution grid. -/
theorem c6_circle_accuracy (sw sh : ℕ) (p : ℚ × ℚ)
    (hp : p ∈ implicitSolve circleF (-(3/2), 3/2) (-(3/2), 3/2) sw sh) :
    |norm2 p - 1| <
      2 * ((max (impXStep (-(3/2), 3/2) sw) (impYStep (-(3/2), 3/2) sh) : ℚ) : ℝ) := by
  have hxs := impXStep_circle_pos sw
  have hys := impYStep_circle_pos sh
  set xs := impXStep (-(3/2), 3/2) sw with hxsdef
  set ys := impYStep (-(3/2), 3/2) sh with hysdef
  rw [mem_implicitSolve_points] at hp
  obtain ⟨i, hi, j, hj, hcase⟩ := hp
  set x : ℚ := (-(3/2) : ℚ) + i * xs with hxdef
  set y : ℚ := (-(3/2) : ℚ) + j * ys with hydef
  rcases hcase with ⟨hcross, hpeq⟩ | ⟨hcross, hpeq⟩
  · -- horizontal edge: p = (x + t·xs, y)
    set t := linearInterp (circleF x y) (circleF (x + xs) y) with htdef
    have htb := linearInterp_bounds (circleF x y) (circleF (x + xs) y)
    have hg : Continuous (fun s : ℝ => ((x:ℝ) + s) ^ 2 + ((y:ℝ)) ^ 2 - 1) := by
      continuity
    have hprod : (fun s : ℝ => ((x:ℝ) + s) ^ 2 + ((y:ℝ)) ^ 2 - 1) 0 *
        (fun s : ℝ => ((x:ℝ) + s) ^ 2 + ((y:ℝ)) ^ 2 - 1) (xs:ℝ) ≤ 0 := by
      have hc : ((circleF x y * circleF (x + xs) y : ℚ) : ℝ) ≤ 0 := by
        exact_mod_cast hcross
      calc (fun s : ℝ => ((x:ℝ) + s) ^ 2 + ((y:ℝ)) ^ 2 - 1) 0 *
            (fun s : ℝ => ((x:ℝ) + s) ^ 2 + ((y:ℝ)) ^ 2 - 1) (xs:ℝ)
          = ((circleF x y * circleF (x + xs) y : ℚ) : ℝ) := by
            simp only [circleF]
            push_cast
            ring
        _ ≤ 0 := hc
    obtain ⟨s, hs0, hs1, hroot⟩ := exists_root_of_sign_change _ hg (xs:ℝ)
      (by exact_mod_cast hxs.le) hprod
    have hroot2 : ((x:ℝ) + s) ^ 2 + ((y:ℝ)) ^ 2 = 1 := by
      have := hroot
      simp only at this
      linarith
    subst hpeq
    have hpoint : impHPoint circleF (-(3/2), 3/2) (-(3/2), 3/2) sw sh i j =
        (x + t * xs, y) := by
      simp only [impHPoint, htdef, hxdef, hydef, hxsdef, hysdef]
    rw [hpoint]
    have := edge_point_estimate x y t xs (max xs ys) s htb.1 htb.2 hs0 hs1
      hxs (le_max_left _ _) hroot2
    simpa [norm2] using this
  · -- vertical edge: p = (x, y + t·ys)
    set t := linearInterp (circleF x y) (circleF x (y + ys)) with htdef
    have htb := linearInterp_bounds (circleF x y) (circleF x (y + ys))
    have hg : Continuous (fun s : ℝ => ((y:ℝ) + s) ^ 2 + ((x:ℝ)) ^ 2 - 1) := by
      continuity
    have hprod : (fun s : ℝ => ((y:ℝ) + s) ^ 2 + ((x:ℝ)) ^ 2 - 1) 0 *
        (fun s : ℝ => ((y:ℝ) + s) ^ 2 + ((x:ℝ)) ^ 2 - 1) (ys:ℝ) ≤ 0 := by
      have hc : ((circleF x y * circleF x (y + ys) : ℚ) : ℝ) ≤ 0 := by
        exact_mod_cast hcross
      calc (fun s : ℝ => ((y:ℝ) + s) ^ 2 + ((x:ℝ)) ^ 2 - 1) 0 *
            (fun s : ℝ => ((y:ℝ) + s) ^ 2 + ((x:ℝ)) ^ 2 - 1) (ys:ℝ)
          = ((circleF x y * circleF x (y + ys) : ℚ) : ℝ) := by
            simp only [circleF]
            push_cast
            ring
        _ ≤ 0 := hc
    obtain ⟨s, hs0, hs1, hroot⟩ := exists_root_of_sign_change _ hg (ys:ℝ)
      (by exact_mod_cast hys.le) hprod
    have hroot2 : ((y:ℝ) + s) ^ 2 + ((x:ℝ)) ^ 2 = 1 := by
      have := hroot
      simp only at this
      linarith
    subst hpeq
    have hpoint : impVPoint circleF (-(3/2), 3/2) (-(3/2), 3/2) sw sh i j =
        (x, y + t * ys) := by
      simp only [impVPoint, htdef, hxdef, hydef, hxsdef, hysdef]
    rw [hpoint]
    have := edge_point_estimate y x t ys (max xs ys) s htb.1 htb.2 hs0 hs1
      hys (le_max_right _ _) hroot2
    have hcomm : norm2 (x, y + t * ys) =
        Real.sqrt ((((y + t * ys : ℚ)):ℝ) ^ 2 + ((x:ℝ)) ^ 2) := by
      simp only [norm2]
      rw [add_comm]
    rw [hcomm]
    exact this

/-- Claim C6 witness: at screen 200x200 the grid is 100x100 with step
`3/100`; the cell `(83, 50)` has base point `(0.99, 0)` and its horizontal
edge crosses the unit circle. -/
theorem c6_witness :
    |norm2 (impHPoint circleF (-(3/2), 3/2) (-(3/2), 3/2) 200 200 83 50) - 1| <
      2 * ((max (impXStep (-(3/2), 3/2) 200) (impYStep (-(3/2), 3/2) 200) : ℚ) : ℝ) :=
  c6_circle_accuracy 200 200 _ ((mem_implicitSolve_points _ _ _ _ _ _).mpr
    ⟨83, by norm_num [gridClamp], 50, by norm_num [gridClamp],
      Or.inl ⟨by norm_num [impHCross, impXStep, impYStep, gridClamp, circleF], rfl⟩⟩)

/-! ## Claim C7: parametric-surface NaN containment -/

theorem gridEncode_inj (m i j i0 j0 : ℕ) (hj : j < m + 1) (hj0 : j0 < m + 1)
    (h : i * (m + 1) + j = i0 * (m + 1) + j0) : i = i0 ∧ j = j0 := by
  have e1 : (i * (m + 1) + j) % (m + 1) = j := by
    rw [Nat.mul_comm, Nat.mul_add_mod, Nat.mod_eq_of_lt hj]
  have e2 : (i0 * (m + 1) + j0) % (m + 1) = j0 := by
    rw [Nat.mul_comm, Nat.mul_add_mod, Nat.mod_eq_of_lt hj0]
  rw [h, e2] at e1
  subst e1
  have hmul : i * (m + 1) = i0 * (m + 1) := by omega
  exact ⟨Nat.eq_of_mul_eq_mul_right (by omega) hmul, rfl⟩

theorem storedPos_of_bad (func : ℚ → ℚ → FV3) (ur vr : ℚ × ℚ)
    (useg vseg i j : ℕ)
    (h : fvFinite (func (gridCoord ur useg i) (gridCoord vr vseg j)) = false) :
    storedPos func ur vr useg vseg i j = nanV := by
  simp [storedPos, h]

theorem storedPos_of_good (func : ℚ → ℚ → FV3) (ur vr : ℚ × ℚ)
    (useg vseg i j : ℕ)
    (h : fvFinite (func (gridCoord ur useg i) (gridCoord vr vseg j)) = true) :
    storedPos func ur vr useg vseg i j =
      func (gridCoord ur useg i) (gridCoord vr vseg j) := by
  simp [storedPos, h]

theorem isNan_false_of_isFinite {α : Type} (x : Flt α)
    (h : x.isFinite = true) : x.isNan = false := by
  cases x <;> simp_all [Flt.isFinite, Flt.isNan]

theorem validTri_false_of_nan (p1 p2 p3 : FV3)
    (h : p1.1.isNan = true ∨ p2.1.isNan = true ∨ p3.1.isNan = true) :
    validTri p1 p2 p3 = false := by
  rw [validTri]
  rcases h with h | h | h <;> simp [h]

theorem mem_surfIndices (func : ℚ → ℚ → FV3) (ur vr : ℚ × ℚ)
    (useg vseg : ℕ) (ix : ℕ) :
    ix ∈ surfIndices func ur vr useg vseg ↔
      ∃ i < useg, ∃ j < vseg, ix ∈ surfCellIdx func ur vr useg vseg i j := by
  simp [surfIndices, List.mem_flatMap, List.mem_range]

theorem mem_surfCellIdx (func : ℚ → ℚ → FV3) (ur vr : ℚ × ℚ)
    (useg vseg i j : ℕ) (ix : ℕ) :
    ix ∈ surfCellIdx func ur vr useg vseg i j ↔
      (validTri (storedPos func ur vr useg vseg i j)
          (storedPos func ur vr useg vseg (i + 1) j)
          (storedPos func ur vr useg vseg i (j + 1)) = true ∧
        ix ∈ [i * (vseg + 1) + j, (i + 1) * (vseg + 1) + j,
          i * (vseg + 1) + j + 1]) ∨
      (validTri (storedPos func ur vr useg vseg i (j + 1))
          (storedPos func ur vr useg vseg (i + 1) j)
          (storedPos func ur vr useg vseg (i + 1) (j + 1)) = true ∧
        ix ∈ [i * (vseg + 1) + j + 1, (i + 1) * (vseg + 1) + j,
          (i + 1) * (vseg + 1) + j + 1]) := by
  simp only [surfCellIdx, List.mem_append, List.mem_ite_nil_right]

/-- Claim C7 amended: with exactly one non-finite grid sample `(i0, j0)`,
every triangle incident to that vertex is absent — its index never occurs
in the buffer — and every other grid triangle is present provided all three
of its squared edge lengths also pass the `JUMP_THRESHOLD_SQ` test (the
claim omitted that proviso; the counterexample shows it is necessary). -/
theorem c7_amended (func : ℚ → ℚ → FV3) (ur vr : ℚ × ℚ)
    (useg vseg i0 j0 : ℕ) (hi0 : i0 ≤ useg) (hj0 : j0 ≤ vseg)
    (hbad : fvFinite (func (gridCoord ur useg i0) (gridCoord vr vseg j0)) = false)
    (hgood : ∀ i ≤ useg, ∀ j ≤ vseg, (i, j) ≠ (i0, j0) →
      fvFinite (func (gridCoord ur useg i) (gridCoord vr vseg j)) = true) :
    (i0 * (vseg + 1) + j0) ∉ surfIndices func ur vr useg vseg ∧
      (∀ i j, i < useg → j < vseg →
        ((i, j) ≠ (i0, j0) → (i + 1, j) ≠ (i0, j0) → (i, j + 1) ≠ (i0, j0) →
          Flt.lt (.fin JUMP_THRESHOLD_SQ)
              (posDistSq (storedPos func ur vr useg vseg i j)
                (storedPos func ur vr useg vseg (i + 1) j)) = false →
          Flt.lt (.fin JUMP_THRESHOLD_SQ)
              (posDistSq (storedPos func ur vr useg vseg (i + 1) j)
                (storedPos func ur vr useg vseg i (j + 1))) = false →
          Flt.lt (.fin JUMP_THRESHOLD_SQ)
              (posDistSq (storedPos func ur vr useg vseg i (j + 1))
                (storedPos func ur vr useg vseg i j)) = false →
          [i * (vseg + 1) + j, (i + 1) * (vseg + 1) + j,
            i * (vseg + 1) + j + 1].Sublist (surfIndices func ur vr useg vseg)) ∧
        ((i, j + 1) ≠ (i0, j0) → (i + 1, j) ≠ (i0, j0) →
          (i + 1, j + 1) ≠ (i0, j0) →
          Flt.lt (.fin JUMP_THRESHOLD_SQ)
              (posDistSq (storedPos func ur vr useg vseg i (j + 1))
                (storedPos func ur vr useg vseg (i + 1) j)) = false →
          Flt.lt (.fin JUMP_THRESHOLD_SQ)
              (posDistSq (storedPos func ur vr useg vseg (i + 1) j)
                (storedPos func ur vr useg vseg (i + 1) (j + 1))) = false →
          Flt.lt (.fin JUMP_THRESHOLD_SQ)
              (posDistSq (storedPos func ur vr useg vseg (i + 1) (j + 1))
                (storedPos func ur vr useg vseg i (j + 1))) = false →
          [i * (vseg + 1) + j + 1, (i + 1) * (vseg + 1) + j,
            (i + 1) * (vseg + 1) + j + 1].Sublist
            (surfIndices func ur vr useg vseg))) := by
  have hnanPos : storedPos func ur vr useg vseg i0 j0 = nanV :=
    storedPos_of_bad func ur vr useg vseg i0 j0 hbad
  have hgoodPos : ∀ i ≤ useg, ∀ j ≤ vseg, (i, j) ≠ (i0, j0) →
      (storedPos func ur vr useg vseg i j).1.isNan = false := by
    intro i hi j hj hne
    rw [storedPos_of_good func ur vr useg vseg i j (hgood i hi j hj hne)]
    have hfin := hgood i hi j hj hne
    simp only [fvFinite, Bool.and_eq_true] at hfin
    exact isNan_false_of_isFinite _ hfin.1.1
  constructor
  · intro hmem
    rw [mem_surfIndices] at hmem
    obtain ⟨i, hi, j, hj, hcell⟩ := hmem
    rw [mem_surfCellIdx] at hcell
    rcases hcell with ⟨hvalid, hix⟩ | ⟨hvalid, hix⟩ <;>
      simp only [List.mem_cons, List.not_mem_nil, or_false] at hix
    · rcases hix with h | h | h
      · obtain ⟨rfl, rfl⟩ := gridEncode_inj vseg i j i0 j0 (by omega) (by omega) h.symm
        rw [validTri_false_of_nan _ _ _ (Or.inl (by rw [hnanPos]; rfl))] at hvalid
        cases hvalid
      · obtain ⟨rfl, rfl⟩ := gridEncode_inj vseg (i + 1) j i0 j0 (by omega) (by omega) h.symm
        rw [validTri_false_of_nan _ _ _
          (Or.inr (Or.inl (by rw [hnanPos]; rfl)))] at hvalid
        cases hvalid
      · have h2 : i * (vseg + 1) + (j + 1) = i0 * (vseg + 1) + j0 := by omega
        obtain ⟨rfl, rfl⟩ := gridEncode_inj vseg i (j + 1) i0 j0 (by omega) (by omega) h2
        rw [validTri_false_of_nan _ _ _
          (Or.inr (Or.inr (by rw [hnanPos]; rfl)))] at hvalid
        cases hvalid
    · rcases hix with h | h | h
      · have h2 : i * (vseg + 1) + (j + 1) = i0 * (vseg + 1) + j0 := by omega
        obtain ⟨rfl, rfl⟩ := gridEncode_inj vseg i (j + 1) i0 j0 (by omega) (by omega) h2
        rw [validTri_false_of_nan _ _ _ (Or.inl (by rw [hnanPos]; rfl))] at hvalid
        cases hvalid
      · obtain ⟨rfl, rfl⟩ := gridEncode_inj vseg (i + 1) j i0 j0 (by omega) (by omega) h.symm
        rw [validTri_false_of_nan _ _ _
          (Or.inr (Or.inl (by rw [hnanPos]; rfl)))] at hvalid
        cases hvalid
      · have h2 : (i + 1) * (vseg + 1) + (j + 1) = i0 * (vseg + 1) + j0 := by omega
        obtain ⟨rfl, rfl⟩ := gridEncode_inj vseg (i + 1) (j + 1) i0 j0 (by omega)
          (by omega) h2
        rw [validTri_false_of_nan _ _ _
          (Or.inr (Or.inr (by rw [hnanPos]; rfl)))] at hvalid
        cases hvalid
  · intro i j hi hj
    have hcell_sub : (surfCellIdx func ur vr useg vseg i j).Sublist
        (surfIndices func ur vr useg vseg) := by
      have h1 : (surfCellIdx func ur vr useg vseg i j).Sublist
          ((List.range vseg).flatMap fun j2 =>
            surfCellIdx func ur vr useg vseg i j2) :=
        sublist_flatMap_of_mem (List.mem_range.mpr hj)
      have h2 : ((List.range vseg).flatMap fun j2 =>
          surfCellIdx func ur vr useg vseg i j2).Sublist
          (surfIndices func ur vr useg vseg) :=
        @sublist_flatMap_of_mem ℕ ℕ (List.range useg)
          (fun i2 => (List.range vseg).flatMap fun j2 =>
            surfCellIdx func ur vr useg vseg i2 j2) i (List.mem_range.mpr hi)
      exact h1.trans h2
    constructor
    · intro hne1 hne2 hne3 hd1 hd2 hd3
      have hvalid : validTri (storedPos func ur vr useg vseg i j)
          (storedPos func ur vr useg vseg (i + 1) j)
          (storedPos func ur vr useg vseg i (j + 1)) = true := by
        rw [validTri]
        rw [hgoodPos i (by omega) j (by omega) hne1,
          hgoodPos (i + 1) (by omega) j (by omega) hne2,
          hgoodPos i (by omega) (j + 1) (by omega) hne3, hd1, hd2, hd3]
        simp
      have htri : [i * (vseg + 1) + j, (i + 1) * (vseg + 1) + j,
          i * (vseg + 1) + j + 1].Sublist
          (surfCellIdx func ur vr useg vseg i j) := by
        rw [surfCellIdx]
        simp only [hvalid, if_true]
        exact List.sublist_append_left _ _
      exact htri.trans hcell_sub
    · intro hne1 hne2 hne3 hd1 hd2 hd3
      have hvalid : validTri (storedPos func ur vr useg vseg i (j + 1))
          (storedPos func ur vr useg vseg (i + 1) j)
          (storedPos func ur vr useg vseg (i + 1) (j + 1)) = true := by
        rw [validTri]
        rw [hgoodPos i (by omega) (j + 1) (by omega) hne1,
          hgoodPos (i + 1) (by omega) j (by omega) hne2,
          hgoodPos (i + 1) (by omega) (j + 1) (by omega) hne3, hd1, hd2, hd3]
        simp
      have htri : [i * (vseg + 1) + j + 1, (i + 1) * (vseg + 1) + j,
          (i + 1) * (vseg + 1) + j + 1].Sublist
          (surfCellIdx func ur vr useg vseg i j) := by
        rw [surfCellIdx]
        simp only [hvalid, if_true]
        exact List.sublist_append_right _ _
      exact htri.trans hcell_sub

/-- Claim C7 witness: on the 1×1 grid over `[0,1]²` with the sample at
`(0,0)` non-finite and all other samples finite, the bad vertex's index 0
never occurs in the index buffer. -/
theorem c7_witness :
    (0 * (1 + 1) + 0 : ℕ) ∉ surfIndices cexSurfFunc7 (0, 1) (0, 1) 1 1 :=
  (c7_amended cexSurfFunc7 (0, 1) (0, 1) 1 1 0 0 (by omega) (by omega)
    (by rw [gridCoord01_zero]
        norm_num [cexSurfFunc7, nanV, fvFinite, Flt.isFinite])
    (by intro i hi j hj hne
        interval_cases i <;> interval_cases j <;>
          simp only [gridCoord01_zero, gridCoord01_one] <;>
          first
            | exact absurd rfl hne
            | norm_num [cexSurfFunc7, nanV, fvFinite, Flt.isFinite])).1

/-- Claim C7 counterexample: `cexSurfFunc7` is non-finite at exactly one
grid sample (vertex 0 of the 1×1 grid over `[0,1]²`), yet the index buffer
is empty — so the second triangle `(1, 2, 3)`, which is not incident to the
bad vertex, is also absent, against the claim that exactly the incident
triangles are absent and all other triangles present: its 20-unit edge
fails the `JUMP_THRESHOLD_SQ` test. -/
theorem c7_counterexample :
    fvFinite (cexSurfFunc7 (gridCoord (0, 1) 1 0) (gridCoord (0, 1) 1 0)) = false ∧
      (∀ i ≤ 1, ∀ j ≤ 1, (i, j) ≠ ((0 : ℕ), (0 : ℕ)) →
        fvFinite (cexSurfFunc7 (gridCoord (0, 1) 1 i) (gridCoord (0, 1) 1 j)) = true) ∧
      surfIndices cexSurfFunc7 (0, 1) (0, 1) 1 1 = [] := by
  have hbad : fvFinite (cexSurfFunc7 (gridCoord (0, 1) 1 0) (gridCoord (0, 1) 1 0)) = false := by
    rw [gridCoord01_zero]
    norm_num [cexSurfFunc7, nanV, fvFinite, Flt.isFinite]
  have hgood : ∀ i ≤ 1, ∀ j ≤ 1, (i, j) ≠ ((0 : ℕ), (0 : ℕ)) →
      fvFinite (cexSurfFunc7 (gridCoord (0, 1) 1 i) (gridCoord (0, 1) 1 j)) = true := by
    intro i hi j hj hne
    interval_cases i <;> interval_cases j <;>
      simp only [gridCoord01_zero, gridCoord01_one] <;>
      first
        | exact absurd rfl hne
        | norm_num [cexSurfFunc7, nanV, fvFinite, Flt.isFinite]
  refine ⟨hbad, hgood, ?_⟩
  have hA : storedPos cexSurfFunc7 (0, 1) (0, 1) 1 1 0 0 = nanV :=
    storedPos_of_bad _ _ _ _ _ _ _ hbad
  have hB : storedPos cexSurfFunc7 (0, 1) (0, 1) 1 1 0 1 = (.fin 0, .fin 0, .fin 0) := by
    rw [storedPos_of_good _ _ _ _ _ _ _ (hgood 0 (by omega) 1 (by omega) (by simp))]
    rw [gridCoord01_zero, gridCoord01_one]
    norm_num [cexSurfFunc7]
  have hD : storedPos cexSurfFunc7 (0, 1) (0, 1) 1 1 1 0 = (.fin 20, .fin 0, .fin 0) := by
    rw [storedPos_of_good _ _ _ _ _ _ _ (hgood 1 (by omega) 0 (by omega) (by simp))]
    rw [gridCoord01_zero, gridCoord01_one]
    norm_num [cexSurfFunc7]
  have hC : storedPos cexSurfFunc7 (0, 1) (0, 1) 1 1 1 1 = (.fin 0, .fin 0, .fin 0) := by
    rw [storedPos_of_good _ _ _ _ _ _ _ (hgood 1 (by omega) 1 (by omega) (by simp))]
    rw [gridCoord01_one]
    norm_num [cexSurfFunc7]
  have hcell : surfCellIdx cexSurfFunc7 (0, 1) (0, 1) 1 1 0 0 = [] := by
    simp only [surfCellIdx, hA, hB, hC, hD]
    norm_num [validTri, nanV, Flt.isNan, posDistSq, Flt.sub, Flt.add, Flt.neg,
      Flt.mul, Flt.lt, JUMP_THRESHOLD_SQ]
  simp [surfIndices, List.range_succ, hcell]

/-! ## Claim C10: determinism under any worker completion order -/

theorem mergeSort_perm_range (order : List ℕ) (n : ℕ)
    (h : order.Perm (List.range n)) :
    order.mergeSort (fun a b => decide (a ≤ b)) = List.range n := by
  have hperm : (order.mergeSort (fun a b => decide (a ≤ b))).Perm (List.range n) :=
    (List.mergeSort_perm order _).trans h
  have hp := @List.sorted_mergeSort ℕ (fun a b => decide (a ≤ b))
    (fun a b c hab hbc =>
      decide_eq_true (le_trans (of_decide_eq_true hab) (of_decide_eq_true hbc)))
    (fun a b => by rcases le_total a b with hle | hle <;> simp [hle])
    order
  have hsorted : List.Sorted (· ≤ ·) (order.mergeSort (fun a b => decide (a ≤ b))) :=
    List.Pairwise.imp (fun hab => of_decide_eq_true hab) hp
  exact List.eq_of_perm_of_sorted hperm hsorted
    ((List.sorted_lt_range n).imp fun hab => le_of_lt hab)

/-- Claim C10: each solver's output is independent of the order in which
its data-parallel workers complete.  A completion order is any permutation
of the worker index range; the runtime reassembles results in index order
(sorting the completion order recovers the index range), so the buffer is
exactly the index-ordered concatenation the solver definition denotes —
element for element, not merely as a set: for the implicit 2D solver's
column workers, for the marching-cubes z-layer workers feeding the serial
rebasing merge, and for the explicit solver's parallel sample map. -/
theorem c10_deterministic_order :
    (∀ (f : ℚ → ℚ → ℚ) (xr yr : ℚ × ℚ) (sw sh : ℕ) (order : List ℕ),
        order.Perm (List.range (gridClamp (sw / 2))) →
        (order.mergeSort (fun a b => decide (a ≤ b))).flatMap
            (impColumn f xr yr sw sh) = implicitSolve f xr yr sw sh) ∧
      (∀ (func : ℝ → ℝ → ℝ → ℝ) (eT : ℕ → ℕ) (tT : ℕ → ℕ → ℤ)
          (xr yr zr : ℝ × ℝ) (res : ℕ) (order : List ℕ),
        order.Perm (List.range res) →
        mergeParts ((order.mergeSort (fun a b => decide (a ≤ b))).map
            (mcLayer func eT tT xr yr zr res)) =
          mcSolve func eT tT xr yr zr res) ∧
      (∀ (f : ℚ → Option ℚ) (xMin step : ℚ) (total : ℕ) (order : List ℕ),
        order.Perm (List.range (total + 1)) →
        (order.mergeSort (fun a b => decide (a ≤ b))).map
            (fun i => (xMin + i * step, f (xMin + i * step))) =
          expPathList f xMin step total) := by
  refine ⟨?_, ?_, ?_⟩
  · intro f xr yr sw sh order hord
    rw [mergeSort_perm_range order _ hord]
    rfl
  · intro func eT tT xr yr zr res order hord
    rw [mergeSort_perm_range order _ hord]
    rfl
  · intro f xMin step total order hord
    rw [mergeSort_perm_range order _ hord]
    rfl

/-- Claim C10 witness: the reversed completion order of the implicit
solver's 100 column workers yields the same buffer. -/
theorem c10_witness :
    ((List.range 100).reverse.mergeSort (fun a b => decide (a ≤ b))).flatMap
        (impColumn (fun _ _ => 1) (0, 1) (0, 1) 0 0) =
      implicitSolve (fun _ _ => 1) (0, 1) (0, 1) 0 0 :=
  c10_deterministic_order.1 (fun _ _ => 1) (0, 1) (0, 1) 0 0
    ((List.range 100).reverse)
    (by
      have hg : gridClamp (0 / 2) = 100 := by norm_num [gridClamp]
      rw [hg]
      exact List.reverse_perm _)

/-! ## Claim C9: tube cross-section perpendicular to the path tangent -/

theorem v3dot_cross_self (a b : V3) : v3dot (v3cross a b) a = 0 := by
  simp only [v3dot, v3cross]
  ring

theorem v3dot_unit_left_zero (w T : V3) (h : v3dot w T = 0) :
    v3dot (v3unit w) T = 0 := by
  simp only [v3unit]
  split
  · simp only [v3dot] at h ⊢
    linear_combination h / Real.sqrt (v3pow2 w)
  · simp [v3dot]

/-- Claim C9: every stored tube vertex normal is perpendicular to the
forward-difference path tangent of its ring — the dot product is exactly 0,
hence within `1e-6` of 0. -/
theorem c9_tube_cross_section (func : ℝ → V3) (tr : ℝ × ℝ)
    (pseg tseg i j : ℕ) :
    |v3dot (tubeRingNormal func tr pseg tseg i j)
        (tubeTangent func (tubeT tr pseg i))| < 1e-6 := by
  have hz : v3dot (tubeRingNormal func tr pseg tseg i j)
      (tubeTangent func (tubeT tr pseg i)) = 0 := by
    simp only [tubeRingNormal, tubeOffsetDir, tubeFrame]
    apply v3dot_unit_left_zero
    set T := tubeTangent func (tubeT tr pseg i) with hT
    set hax : V3 := if 0.99 < |v3dot T (0, 1, 0)| then ((0:ℝ), (0:ℝ), (1:ℝ)) else (0, 1, 0) with hhax
    have hN : v3dot (v3unit (v3cross T hax)) T = 0 :=
      v3dot_unit_left_zero _ _ (v3dot_cross_self T hax)
    have hB : v3dot (v3unit (v3cross T (v3unit (v3cross T hax)))) T = 0 :=
      v3dot_unit_left_zero _ _ (v3dot_cross_self T _)
    set N := v3unit (v3cross T hax)
    set B := v3unit (v3cross T N)
    set c := Real.cos (((j : ℝ) / (tseg : ℝ)) * (2 * Real.pi))
    set s := Real.sin (((j : ℝ) / (tseg : ℝ)) * (2 * Real.pi))
    simp only [v3dot, v3add, v3smul] at hN hB ⊢
    linear_combination c * hN + s * hB
  rw [hz]
  norm_num

end Forest
